import Mathlib

/-!
Weekly meal-feedback report: a shallow embedding.

The development follows `backend/server.js` (the `GET /api/weekly-report`
handler) and `backend/recomputeWeeklyReport.js` (the recompute script).

* Rating values and averages are exact rationals (`ℚ`); counts are naturals.
* A JavaScript `Date` is its time value, an integer number of milliseconds
  since the epoch; an Invalid Date is `none`.
* The MongoDB stages `$match`, `$addFields`, `$group`, `$group`, `$sort` are
  list functions.  MongoDB leaves open the order in which `$group` emits its
  groups and the order `$sort` gives to documents that tie on every key; here
  `$group` emits the groups in order of first appearance and `$sort` is a stable
  insertion sort.
* An exception or a failed aggregation is `none`; the accesses to the
  database are recorded as a list of events.
-/

namespace MealFeedback

/-! ## ECMAScript time values

The abstract operations of ECMA-262, section "Time Values and Time Range":
`/` and `%` on `Int` are floor division and the non-negative remainder for the
positive divisors used here. -/

/-- Milliseconds per day. -/
def msPerDay : Int := 86400000

/-- The day number of a time value: `floor(t / msPerDay)`. -/
def Day (t : Int) : Int := t / msPerDay

/-- The milliseconds since the start of the day: `t modulo msPerDay`. -/
def TimeWithinDay (t : Int) : Int := t % msPerDay

/-- The number of days of year `y`. -/
def DaysInYear (y : Int) : Int :=
  if y % 4 ≠ 0 then 365 else if y % 100 ≠ 0 then 366 else if y % 400 ≠ 0 then 365 else 366

/-- The day number of the first day of year `y`. -/
def DayFromYear (y : Int) : Int :=
  365 * (y - 1970) + (y - 1969) / 4 - (y - 1901) / 100 + (y - 1601) / 400

/-- The year containing day number `d`: the largest `y` with `DayFromYear y ≤ d`,
found from the estimate `1970 + floor(400 d / 146097)`, which is off by at most one. -/
def yearFromDay (d : Int) : Int :=
  let y := 1970 + (d * 400) / 146097
  if d < DayFromYear y then y - 1 else if DayFromYear (y + 1) ≤ d then y + 1 else y

/-- The year of a time value. -/
def YearFromTime (t : Int) : Int := yearFromDay (Day t)

/-- One for a leap year, zero otherwise. -/
def leapDays (y : Int) : Int := if DaysInYear y = 366 then 1 else 0

/-- One if the time value falls in a leap year, zero otherwise. -/
def InLeapYear (t : Int) : Int := leapDays (YearFromTime t)

/-- The day number within the year, from zero. -/
def DayWithinYear (t : Int) : Int := Day t - DayFromYear (YearFromTime t)

/-- The month table of `MonthFromTime`, on the day within the year and the leap flag. -/
def monthOfYearDay (dwy l : Int) : Int :=
  if dwy < 31 then 0 else if dwy < 59 + l then 1 else if dwy < 90 + l then 2
  else if dwy < 120 + l then 3 else if dwy < 151 + l then 4 else if dwy < 181 + l then 5
  else if dwy < 212 + l then 6 else if dwy < 243 + l then 7 else if dwy < 273 + l then 8
  else if dwy < 304 + l then 9 else if dwy < 334 + l then 10 else 11

/-- Days of the year before month `m` (0 is January); at 12, the length of the year. -/
def daysBeforeMonth (m l : Int) : Int :=
  if m = 0 then 0 else if m = 1 then 31 else if m = 2 then 59 + l else if m = 3 then 90 + l
  else if m = 4 then 120 + l else if m = 5 then 151 + l else if m = 6 then 181 + l
  else if m = 7 then 212 + l else if m = 8 then 243 + l else if m = 9 then 273 + l
  else if m = 10 then 304 + l else if m = 11 then 334 + l else 365 + l

/-- The month of a time value, 0 to 11. -/
def MonthFromTime (t : Int) : Int := monthOfYearDay (DayWithinYear t) (InLeapYear t)

/-- The day of the month of a time value, 1 to 31. -/
def DateFromTime (t : Int) : Int :=
  DayWithinYear t - daysBeforeMonth (MonthFromTime t) (InLeapYear t) + 1

/-- The day of the week: 0 is Sunday, 1 is Monday, 6 is Saturday. -/
def WeekDay (t : Int) : Int := (Day t + 4) % 7

/-- The day number of the given year, month and date; months and dates outside
their usual range carry over. -/
def MakeDay (year month date : Int) : Int :=
  let ym := year + month / 12
  let mn := month % 12
  DayFromYear ym + daysBeforeMonth mn (leapDays ym) + date - 1

/-- The time value of a day number and a time within the day. -/
def MakeDate (day time : Int) : Int := day * msPerDay + time

/-- A `Date` value: `some t` holds the time value `t`, `none` is an Invalid Date. -/
abbrev JSDate := Option Int

/-- Time values further than 8.64e15 ms from the epoch are not dates. -/
def TimeClip (t : Int) : JSDate :=
  if t < -8640000000000000 ∨ 8640000000000000 < t then none else some t

/-- `Date.UTC(year, month, date)`, then `new Date(...)`: a year from 0 to 99
stands for 1900 + year. -/
def DateUTC (year month date : Int) : JSDate :=
  let yr := if 0 ≤ year ∧ year ≤ 99 then 1900 + year else year
  TimeClip (MakeDate (MakeDay yr month date) 0)

/-- `d.setUTCDate(d.getUTCDate() + k)`; an Invalid Date stays invalid. -/
def addUTCDate (d : JSDate) (k : Int) : JSDate :=
  match d with
  | none => none
  | some t =>
    TimeClip (MakeDate (MakeDay (YearFromTime t) (MonthFromTime t) (DateFromTime t + k))
      (TimeWithinDay t))

/-- `new Date(d.getTime() - 1)`. -/
def minusOneMs (d : JSDate) : JSDate :=
  match d with
  | none => none
  | some t => TimeClip (t - 1)

/-! ## Date strings -/

/-- The decimal digit character of `n % 10`. -/
def digitChar (n : Nat) : Char := Char.ofNat (48 + n % 10)

/-- The lowest `width` decimal digits of `n`, zero padded. -/
def padDigits : Nat → Nat → List Char
  | 0, _ => []
  | w + 1, n => padDigits w (n / 10) ++ [digitChar n]

/-- The year of an ISO string: four digits from 0 to 9999, else a sign and six digits. -/
def isoYear (y : Int) : List Char :=
  if 0 ≤ y ∧ y ≤ 9999 then padDigits 4 y.toNat
  else (if y < 0 then '-' else '+') :: padDigits 6 y.natAbs

/-- The characters of `toISOString()` for a valid time value. -/
def isoChars (t : Int) : List Char :=
  isoYear (YearFromTime t) ++ '-' :: padDigits 2 (MonthFromTime t + 1).toNat ++
    '-' :: padDigits 2 (DateFromTime t).toNat ++
    'T' :: padDigits 2 (TimeWithinDay t / 3600000).toNat ++
    ':' :: padDigits 2 (TimeWithinDay t / 60000 % 60).toNat ++
    ':' :: padDigits 2 (TimeWithinDay t / 1000 % 60).toNat ++
    '.' :: padDigits 3 (TimeWithinDay t % 1000).toNat ++ ['Z']

/-- The function `isoDateOnly` of the script, `d.toISOString().slice(0,10)`, also
written inline in the handler; `none` is the `RangeError` of an Invalid Date. -/
def isoDateOnly (d : JSDate) : Option String :=
  match d with
  | none => none
  | some t => some (String.mk ((isoChars t).take 10))

/-- The `$dateToString` of the pipeline, format `%Y-%m-%d` in UTC; `none` is the
error MongoDB raises for a year outside 0 to 9999. -/
def dateToString (t : Int) : Option String :=
  if 0 ≤ YearFromTime t ∧ YearFromTime t ≤ 9999 then
    some (String.mk (padDigits 4 (YearFromTime t).toNat ++
      '-' :: padDigits 2 (MonthFromTime t + 1).toNat ++
      '-' :: padDigits 2 (DateFromTime t).toNat))
  else none

/-- The value of a decimal digit character. -/
def digitVal (c : Char) : Option Nat :=
  if 48 ≤ c.toNat ∧ c.toNat ≤ 57 then some (c.toNat - 48) else none

/-- The number written by a list of decimal digits, read left to right from `acc`. -/
def readDigits : List Char → Nat → Option Nat
  | [], acc => some acc
  | c :: cs, acc =>
    match digitVal c with
    | some v => readDigits cs (acc * 10 + v)
    | none => none

/-- The part of a date-only form after the year: nothing, `-MM` or `-MM-DD`. -/
def parseMonthDay (y : Int) (rest : List Char) : Option Int :=
  match rest with
  | [] => some (MakeDay y 0 1)
  | [c0, m1, m2] =>
    if c0 = '-' then
      match readDigits [m1, m2] 0 with
      | some m => if 1 ≤ m ∧ m ≤ 12 then some (MakeDay y ((m : Int) - 1) 1) else none
      | none => none
    else none
  | [c0, m1, m2, c1, d1, d2] =>
    if c0 = '-' ∧ c1 = '-' then
      match readDigits [m1, m2] 0, readDigits [d1, d2] 0 with
      | some m, some d =>
        if 1 ≤ m ∧ m ≤ 12 ∧ 1 ≤ d ∧
            (d : Int) ≤ daysBeforeMonth (m : Int) (leapDays y) -
              daysBeforeMonth ((m : Int) - 1) (leapDays y) then
          some (MakeDay y ((m : Int) - 1) (d : Int))
        else none
      | _, _ => none
    else none
  | _ => none

/-- The day number named by a date-only form of the ECMAScript date-time string
format (`YYYY`, `YYYY-MM`, `YYYY-MM-DD`, or the same with a signed six-digit
year, `-000000` excluded); `none` if the characters are not such a form. -/
def parseDateOnly (cs : List Char) : Option Int :=
  match cs with
  | c :: y1 :: y2 :: y3 :: y4 :: rest =>
    if c = '+' ∨ c = '-' then
      match rest with
      | y5 :: y6 :: rest6 =>
        match readDigits [y1, y2, y3, y4, y5, y6] 0 with
        | some y =>
          if c = '+' then parseMonthDay (y : Int) rest6
          else if y = 0 then none else parseMonthDay (-(y : Int)) rest6
        | none => none
      | _ => none
    else
      match readDigits [c, y1, y2, y3] 0 with
      | some y => parseMonthDay (y : Int) (y4 :: rest)
      | none => none
  | [y1, y2, y3, y4] =>
    match readDigits [y1, y2, y3, y4] 0 with
    | some y => parseMonthDay (y : Int) []
    | none => none
  | _ => none

/-- The expression `new Date(s + 'T00:00:00Z')`.  A string in the ECMAScript
date-time format has one `T`, so `s` must be a date-only form; its value is
midnight UTC of that date.  For any other string the engine applies its own
fallback `legacy`, which the standard leaves open; whatever it finds is clipped
to the range of dates. -/
def parseStart (legacy : String → JSDate) (s : String) : JSDate :=
  match parseDateOnly s.data with
  | some d =>
    match TimeClip (MakeDate d 0) with
    | some t => some t
    | none => (legacy (s ++ "T00:00:00Z")).bind TimeClip
  | none => (legacy (s ++ "T00:00:00Z")).bind TimeClip

/-- The function `getWeekStartISO` of the script; `none` is the `RangeError` that
`toISOString` throws on an Invalid Date. -/
def getWeekStartISO (date : Int) : Option String :=
  match DateUTC (YearFromTime date) (MonthFromTime date) (DateFromTime date) with
  | none => none
  | some d =>
    let day := WeekDay d
    let diff := (day + 6) % 7
    isoDateOnly (addUTCDate (some d) (-diff))

/-- The week start of the handler when `weekStart` is absent:
`new Date(Date.UTC(now.getUTCFullYear(), now.getUTCMonth(), now.getUTCDate() - diff))`. -/
def handlerWeekStart (now : Int) : JSDate :=
  let day := WeekDay now
  let diff := (day + 6) % 7
  DateUTC (YearFromTime now) (MonthFromTime now) (DateFromTime now - diff)

/-! ## Documents -/

/-- A document of the `ratings` collection, restricted to the fields the
weekly report reads. -/
structure Rating where
  mealId : String
  canteenId : String
  rating : ℚ
  createdAt : Int
deriving DecidableEq

/-- A rating after `$addFields`: the document together with its `day` string. -/
structure DatedRating where
  doc : Rating
  day : String
deriving DecidableEq

/-- Output document of the first `$group` stage, `_id: { mealId, day }`. -/
structure DayGroup where
  mealId : String
  day : String
  count : Nat
  avgRating : ℚ
  sumRating : ℚ
deriving DecidableEq

/-- Element pushed into `daily` by the second `$group` stage. -/
structure DailyItem where
  day : String
  count : Nat
  avgRating : ℚ
  sumRating : ℚ
deriving DecidableEq

/-- Output document of the second `$group` stage, `_id: "$_id.mealId"`. -/
structure MealAgg where
  _id : String
  daily : List DailyItem
  avgRating : ℚ
  count : Nat
deriving DecidableEq

/-- Entry of `weeklySummary.topMeals`. -/
structure TopMeal where
  mealId : String
  avgRating : ℚ
  count : Nat
deriving DecidableEq

/-- Value stored in `dailyMap[day]`. -/
structure DayAcc where
  count : Nat
  sumRating : ℚ
deriving DecidableEq

/-- Entry of `weeklySummary.daily` in the response. -/
structure DailyRollup where
  date : String
  count : Nat
  avgRating : ℚ
deriving DecidableEq

/-! ## The aggregation pipeline -/

/-- Keys of a list in order of first appearance. -/
def firstSeen {κ : Type} [DecidableEq κ] : List κ → List κ
  | [] => []
  | k :: ks => k :: (firstSeen ks).filter (fun x => decide (x ≠ k))

/-- The `$avg` accumulator over numeric values: sum divided by count. -/
def mongoAvg (xs : List ℚ) : ℚ := xs.sum / (xs.length : ℚ)

/-- Stage `$match: { canteenId, createdAt: { $gte: start, $lt: end } }`. -/
def matchStage (canteenId : String) (start stop : Int) (rs : List Rating) : List Rating :=
  rs.filter (fun r => decide (r.canteenId = canteenId ∧ start ≤ r.createdAt ∧ r.createdAt < stop))

/-- The output document of the first `$group` for the key `{ mealId, day }`:
`count: { $sum: 1 }`, `avgRating: { $avg: "$rating" }`, `sumRating: { $sum: "$rating" }`.
The script also asks for `avgTaste: { $avg: "$taste" }`, which no later stage reads. -/
def dayGroupOf (docs : List DatedRating) (k : String × String) : DayGroup :=
  let g := docs.filter (fun d => decide ((d.doc.mealId, d.day) = k))
  { mealId := k.1
    day := k.2
    count := g.length
    avgRating := mongoAvg (g.map (fun d => d.doc.rating))
    sumRating := (g.map (fun d => d.doc.rating)).sum }

/-- First `$group`: by `{ mealId, day }`. -/
def groupByMealDay (docs : List DatedRating) : List DayGroup :=
  (firstSeen (docs.map (fun d => (d.doc.mealId, d.day)))).map (dayGroupOf docs)

/-- The output document of the second `$group` for the key `mealId`: the per-day
documents pushed into `daily`, `avgRating: { $avg: "$avgRating" }` and
`count: { $sum: "$count" }`. -/
def mealAggOf (gs : List DayGroup) (m : String) : MealAgg :=
  let g := gs.filter (fun x => decide (x.mealId = m))
  { _id := m
    daily := g.map (fun x =>
      { day := x.day, count := x.count, avgRating := x.avgRating, sumRating := x.sumRating })
    avgRating := mongoAvg (g.map (fun x => x.avgRating))
    count := (g.map (fun x => x.count)).sum }

/-- Second `$group`: by `mealId`. -/
def groupByMeal (gs : List DayGroup) : List MealAgg :=
  (firstSeen (gs.map (fun g => g.mealId))).map (mealAggOf gs)

/-- The order of `$sort: { avgRating: -1, count: -1 }`: `a` may precede `b`. -/
def sortBefore (a b : MealAgg) : Prop :=
  b.avgRating < a.avgRating ∨ (a.avgRating = b.avgRating ∧ b.count ≤ a.count)

instance : DecidableRel sortBefore := fun a b => by
  unfold sortBefore
  exact inferInstance

/-- Stage `$sort: { avgRating: -1, count: -1 }`. -/
def sortStage (ms : List MealAgg) : List MealAgg := ms.insertionSort sortBefore

/-- The stages after `$addFields`: both `$group` stages and the `$sort`. -/
def groupAndSort (docs : List DatedRating) : List MealAgg :=
  sortStage (groupByMeal (groupByMealDay docs))

/-! ## The summary loop of the handler and of the script -/

/-- The three statements of the inner loop body on `dailyMap`:
`if (!dailyMap[d.day]) dailyMap[d.day] = { count: 0, sumRating: 0 }`, then the
two `+=`.  The map keeps its keys in insertion order. -/
def mergeDay (d : DailyItem) : List (String × DayAcc) → List (String × DayAcc)
  | [] => [(d.day, { count := 0 + d.count, sumRating := 0 + d.sumRating })]
  | (k, a) :: rest =>
    if k = d.day then
      (k, { count := a.count + d.count, sumRating := a.sumRating + d.sumRating }) :: rest
    else (k, a) :: mergeDay d rest

/-- Loop state: `topMeals`, `totalRatings` and `dailyMap`. -/
structure LoopState where
  topMeals : List TopMeal
  totalRatings : Nat
  dailyMap : List (String × DayAcc)

/-- One iteration of `for (const meal of byMeal)`. -/
def loopStep (s : LoopState) (meal : MealAgg) : LoopState :=
  { topMeals := s.topMeals ++ [{ mealId := meal._id, avgRating := meal.avgRating, count := meal.count }]
    totalRatings := s.totalRatings + meal.count
    dailyMap := meal.daily.foldl (fun m d => mergeDay d m) s.dailyMap }

/-- The whole loop, from the empty summary. -/
def summaryLoop (byMeal : List MealAgg) : LoopState :=
  byMeal.foldl loopStep { topMeals := [], totalRatings := 0, dailyMap := [] }

/-- The report-level average:
`totalRatings ? topMeals.reduce((s, m) => s + m.avgRating * m.count, 0) / totalRatings : 0`. -/
def reportAvg (topMeals : List TopMeal) (totalRatings : Nat) : ℚ :=
  if totalRatings = 0 then 0
  else topMeals.foldl (fun s m => s + m.avgRating * (m.count : ℚ)) 0 / (totalRatings : ℚ)

/-- The daily list: `Object.keys(dailyMap).sort().map(day => ...)`, the keys sorted
as strings.  Every key has its entry, so the second case of the lookup is never
taken. -/
def dailyList (dailyMap : List (String × DayAcc)) : List DailyRollup :=
  ((dailyMap.map (fun e => e.1)).insertionSort (fun a b => a ≤ b)).map (fun day =>
    match dailyMap.lookup day with
    | some a => { date := day, count := a.count, avgRating := a.sumRating / (a.count : ℚ) }
    | none => { date := day, count := 0, avgRating := 0 })

/-! ## The aggregate call -/

/-- Stage `$addFields: { day: { $dateToString: ... } }`; `none` when MongoDB
raises on one of the documents. -/
def addDayField : List Rating → Option (List DatedRating)
  | [] => some []
  | r :: rs =>
    (dateToString r.createdAt).bind (fun day =>
      (addDayField rs).map (fun ds => { doc := r, day := day } :: ds))

/-- The call `ratings.aggregate(pipeline).toArray()` for valid bounds; `none` when
the aggregation fails. -/
def aggregate (canteenId : String) (start stop : Int) (rs : List Rating) :
    Option (List MealAgg) :=
  (addDayField (matchStage canteenId start stop rs)).map groupAndSort

/-! ## The weekly summary -/

/-- The object `weeklySummary` as the handler sends it. -/
structure WeeklySummary where
  canteenId : String
  weekStart : String
  weekEnd : String
  totalRatings : Nat
  avgRating : ℚ
  topMeals : List TopMeal
  daily : List DailyRollup
deriving DecidableEq

/-- The summary built from the aggregation result `byMeal`. -/
def buildSummary (canteenId weekStart weekEnd : String) (byMeal : List MealAgg) :
    WeeklySummary :=
  let s := summaryLoop byMeal
  { canteenId := canteenId
    weekStart := weekStart
    weekEnd := weekEnd
    totalRatings := s.totalRatings
    avgRating := reportAvg s.topMeals s.totalRatings
    topMeals := s.topMeals
    daily := dailyList s.dailyMap }

/-! ## Store accesses -/

/-- An access to the database, in the order the code issues them. -/
inductive StoreEvent where
  | connect
  | aggregate (canteenId : String) (start stop : JSDate)
  | updateOne (canteenId weekStart : String)
  | close
deriving DecidableEq

/-- What the handler does with the request. -/
inductive HandlerResult where
  | badRequest (error : String)
  | json (body : WeeklySummary)
  | thrown
deriving DecidableEq

/-- The start of the window in the handler: `new Date(weekStart + 'T00:00:00Z')` if
`weekStart` is given and not empty, else the Monday of the clock reading `now`. -/
def handlerStart (legacy : String → JSDate) (now : Int) (weekStart : Option String) : JSDate :=
  match weekStart with
  | none => handlerWeekStart now
  | some w => if w = "" then handlerWeekStart now else parseStart legacy w

/-- The code shared by the handler and the script from the aggregate call to the
finished summary; `none` when an exception is thrown on the way: by the
aggregation, or by `toISOString` on an Invalid Date.  With an Invalid Date as a
bound the aggregate is still issued and `toISOString` throws afterwards. -/
def computeSummary (canteenId : String) (start stop : JSDate) (weekStart : Option String)
    (ratings : List Rating) : Option WeeklySummary :=
  match start, stop with
  | some s, some e =>
    match aggregate canteenId s e ratings, weekStart, isoDateOnly (minusOneMs stop) with
    | some byMeal, some ws, some we => some (buildSummary canteenId ws we byMeal)
    | _, _, _ => none
  | _, _ => none

/-- The handler of `GET /api/weekly-report` after `authMiddleware`, on the query
parameters `canteenId` and `weekStart`, the clock reading `now` and the content
of the `ratings` collection: the store accesses it makes and its result. -/
def weeklyReportHandler (legacy : String → JSDate) (now : Int) (ratings : List Rating)
    (canteenId weekStart : Option String) : List StoreEvent × HandlerResult :=
  match canteenId with
  | none => ([], HandlerResult.badRequest "canteenId required")
  | some c =>
    if c = "" then ([], HandlerResult.badRequest "canteenId required")
    else
      let start : JSDate := handlerStart legacy now weekStart
      let stop : JSDate := addUTCDate start 7
      ([StoreEvent.aggregate c start stop],
        match computeSummary c start stop (isoDateOnly start) ratings with
        | some summary => HandlerResult.json summary
        | none => HandlerResult.thrown)

/-! ## The recompute script -/

/-- A document of `weekly_reports`: the summary fields and `lastUpdated`. -/
structure ReportDoc where
  _id : Nat
  report : WeeklySummary
  lastUpdated : Int
deriving DecidableEq

/-- The call `updateOne({ canteenId, weekStart }, { $set: weeklySummary }, { upsert: true })`:
the first document matching the filter has every field of the summary set, and
with no match a document is inserted. -/
def updateOneUpsert (canteenId weekStart : String) (newId : Nat) (summary : WeeklySummary)
    (lastUpdated : Int) : List ReportDoc → List ReportDoc
  | [] => [{ _id := newId, report := summary, lastUpdated := lastUpdated }]
  | d :: ds =>
    if d.report.canteenId = canteenId ∧ d.report.weekStart = weekStart then
      { _id := d._id, report := summary, lastUpdated := lastUpdated } :: ds
    else d :: updateOneUpsert canteenId weekStart newId summary lastUpdated ds

/-- Materialization of a report: the upsert with the filter taken from the report. -/
def materialize (summary : WeeklySummary) (lastUpdated : Int) (newId : Nat)
    (coll : List ReportDoc) : List ReportDoc :=
  updateOneUpsert summary.canteenId summary.weekStart newId summary lastUpdated coll

/-- How a run of the script ends. -/
inductive ScriptOutcome where
  | usage
  | uncaught
  | failed
  | saved
deriving DecidableEq

/-- The string `startISO` of the script: `weekStartArg || getWeekStartISO(new Date())`;
`none` when `getWeekStartISO` throws. -/
def scriptStartISO (now : Int) (weekStartArg : Option String) : Option String :=
  match weekStartArg with
  | none => getWeekStartISO now
  | some w => if w = "" then getWeekStartISO now else some w

/-- The function `main` of the script on the arguments `canteenId` and
`weekStartArg`, the clock readings `now` and `stamp`, and the two collections;
it returns the accesses, the outcome and the content of `weekly_reports`. -/
def recomputeMain (legacy : String → JSDate) (now stamp : Int) (newId : Nat)
    (ratings : List Rating) (reports : List ReportDoc)
    (canteenId weekStartArg : Option String) :
    List StoreEvent × ScriptOutcome × List ReportDoc :=
  match canteenId with
  | none => ([], ScriptOutcome.usage, reports)
  | some c =>
    if c = "" then ([], ScriptOutcome.usage, reports)
    else
      match scriptStartISO now weekStartArg with
      | none => ([], ScriptOutcome.uncaught, reports)
      | some iso =>
        let start : JSDate := parseStart legacy iso
        let stop : JSDate := addUTCDate start 7
        match computeSummary c start stop (some iso) ratings with
        | none =>
          ([StoreEvent.connect, StoreEvent.aggregate c start stop, StoreEvent.close],
            ScriptOutcome.failed, reports)
        | some summary =>
          ([StoreEvent.connect, StoreEvent.aggregate c start stop,
              StoreEvent.updateOne c iso, StoreEvent.close],
            ScriptOutcome.saved, materialize summary stamp newId reports)

/-! ## The report in the words of the specification -/

/-- A rating matches the canteen and the half-open window. -/
def Matches (canteenId : String) (start stop : Int) (r : Rating) : Prop :=
  r.canteenId = canteenId ∧ start ≤ r.createdAt ∧ r.createdAt < stop

instance (canteenId : String) (start stop : Int) (r : Rating) :
    Decidable (Matches canteenId start stop r) := by
  unfold Matches
  exact inferInstance

/-- The arithmetic mean of a list of values. -/
def mean (xs : List ℚ) : ℚ := xs.sum / (xs.length : ℚ)

/-- The UTC days on which the meal has a rating, each day once. -/
def mealDays (rs : List Rating) (mealId : String) : List Int :=
  firstSeen ((rs.filter (fun r => decide (r.mealId = mealId))).map (fun r => Day r.createdAt))

/-- The rating values of the meal on the UTC day `d`. -/
def dayRatings (rs : List Rating) (mealId : String) (d : Int) : List ℚ :=
  (rs.filter (fun r => decide (r.mealId = mealId ∧ Day r.createdAt = d))).map (fun r => r.rating)

/-- The mean, over the days of the meal, of the mean rating of each day. -/
def meanOfDailyMeans (rs : List Rating) (mealId : String) : ℚ :=
  mean ((mealDays rs mealId).map (fun d => mean (dayRatings rs mealId d)))

/-- The rating values of all the ratings of the UTC day `n`. -/
def ratingsOfDay (rs : List Rating) (n : Int) : List ℚ :=
  (rs.filter (fun r => decide (Day r.createdAt = n))).map (fun r => r.rating)

/-- The day number a day string stands for. -/
def dayNumber (str : String) : Int := (parseDateOnly str.data).getD 0

/-- The sum, over the days of the meal, of the number of ratings of each day. -/
def sumOfDailyCounts (rs : List Rating) (mealId : String) : Nat :=
  ((mealDays rs mealId).map (fun d => (dayRatings rs mealId d).length)).sum

/-! ## Example data -/

/-- Meal A rated 5 and 5, meal B rated 1, all on Monday 2025-09-15. -/
def weightedExample : List Rating :=
  [{ mealId := "A", canteenId := "canteen_01", rating := 5, createdAt := 1757940900000 },
   { mealId := "A", canteenId := "canteen_01", rating := 5, createdAt := 1757940960000 },
   { mealId := "B", canteenId := "canteen_01", rating := 1, createdAt := 1757941000000 }]

/-- Meal A rated 3 and 5 on Monday 2025-09-15 and 2 on Tuesday 2025-09-16. -/
def twoDayExample : List Rating :=
  [{ mealId := "A", canteenId := "canteen_01", rating := 3, createdAt := 1757940900000 },
   { mealId := "A", canteenId := "canteen_01", rating := 5, createdAt := 1757940960000 },
   { mealId := "A", canteenId := "canteen_01", rating := 2, createdAt := 1758027300000 }]

/-- Meal X rated 4 once, meal Y rated 4 twice, meal Z rated 5, all on Monday
2025-09-15: X and Y tie on the average. -/
def tieExample : List Rating :=
  [{ mealId := "X", canteenId := "canteen_01", rating := 4, createdAt := 1757940900000 },
   { mealId := "Y", canteenId := "canteen_01", rating := 4, createdAt := 1757940960000 },
   { mealId := "Y", canteenId := "canteen_01", rating := 4, createdAt := 1757941000000 },
   { mealId := "Z", canteenId := "canteen_01", rating := 5, createdAt := 1757940900000 }]

/-- Meal A rated 4 exactly at the window start 2025-09-15T00:00:00Z and rated 2
exactly at the window end 2025-09-22T00:00:00Z, a rating of another canteen, and
meal B rated 5 inside the window. -/
def boundaryExample : List Rating :=
  [{ mealId := "A", canteenId := "canteen_01", rating := 4, createdAt := 1757894400000 },
   { mealId := "A", canteenId := "canteen_01", rating := 2, createdAt := 1758499200000 },
   { mealId := "A", canteenId := "canteen_02", rating := 1, createdAt := 1757940900000 },
   { mealId := "B", canteenId := "canteen_01", rating := 5, createdAt := 1757940900000 }]

/-- The report of the weighted example. -/
def weightedReport : WeeklySummary :=
  { canteenId := "canteen_01"
    weekStart := "2025-09-15"
    weekEnd := "2025-09-21"
    totalRatings := 3
    avgRating := 11 / 3
    topMeals := [{ mealId := "A", avgRating := 5, count := 2 },
                 { mealId := "B", avgRating := 1, count := 1 }]
    daily := [{ date := "2025-09-15", count := 3, avgRating := 11 / 3 }] }

/-- The report of the two-day example. -/
def twoDayReport : WeeklySummary :=
  { canteenId := "canteen_01"
    weekStart := "2025-09-15"
    weekEnd := "2025-09-21"
    totalRatings := 3
    avgRating := 3
    topMeals := [{ mealId := "A", avgRating := 3, count := 3 }]
    daily := [{ date := "2025-09-15", count := 2, avgRating := 4 },
              { date := "2025-09-16", count := 1, avgRating := 2 }] }

/-- The report of the tie example. -/
def tieReport : WeeklySummary :=
  { canteenId := "canteen_01"
    weekStart := "2025-09-15"
    weekEnd := "2025-09-21"
    totalRatings := 4
    avgRating := 17 / 4
    topMeals := [{ mealId := "Z", avgRating := 5, count := 1 },
                 { mealId := "Y", avgRating := 4, count := 2 },
                 { mealId := "X", avgRating := 4, count := 1 }]
    daily := [{ date := "2025-09-15", count := 4, avgRating := 17 / 4 }] }

/-- The report of the boundary example. -/
def boundaryReport : WeeklySummary :=
  { canteenId := "canteen_01"
    weekStart := "2025-09-15"
    weekEnd := "2025-09-21"
    totalRatings := 2
    avgRating := 9 / 2
    topMeals := [{ mealId := "B", avgRating := 5, count := 1 },
                 { mealId := "A", avgRating := 4, count := 1 }]
    daily := [{ date := "2025-09-15", count := 2, avgRating := 9 / 2 }] }

/-- A stored report of another week, for the upsert example. -/
def olderDoc : ReportDoc :=
  { _id := 7
    report := { canteenId := "canteen_01", weekStart := "2025-09-08", weekEnd := "2025-09-14"
                totalRatings := 0, avgRating := 0, topMeals := [], daily := [] }
    lastUpdated := 1757500000000 }

/-- A stored report of the week of the boundary example, computed before its
ratings were in: same key as `boundaryReport`, other content. -/
def staleDoc : ReportDoc :=
  { _id := 9
    report := { canteenId := "canteen_01", weekStart := "2025-09-15", weekEnd := "2025-09-21"
                totalRatings := 1, avgRating := 4
                topMeals := [{ mealId := "A", avgRating := 4, count := 1 }]
                daily := [{ date := "2025-09-15", count := 1, avgRating := 4 }] }
    lastUpdated := 1757900000000 }

/-! ## The calendar -/

theorem DayFromYear_succ (y : Int) : DayFromYear (y + 1) = DayFromYear y + DaysInYear y := by
  unfold DayFromYear DaysInYear
  split_ifs <;> omega

theorem DayFromYear_bounds (y : Int) :
    146097 * (y - 1970) - 600 ≤ 400 * DayFromYear y ∧
      400 * DayFromYear y ≤ 146097 * (y - 1970) + 600 := by
  unfold DayFromYear
  omega

theorem DayFromYear_lt {a b : Int} (h : a < b) : DayFromYear a < DayFromYear b := by
  unfold DayFromYear
  omega

theorem DayFromYear_le {a b : Int} (h : a ≤ b) : DayFromYear a ≤ DayFromYear b := by
  unfold DayFromYear
  omega

/-- The year found is the one whose days contain `d`. -/
theorem yearFromDay_spec (d : Int) :
    DayFromYear (yearFromDay d) ≤ d ∧ d < DayFromYear (yearFromDay d + 1) := by
  unfold yearFromDay
  simp only
  generalize hy : 1970 + d * 400 / 146097 = y
  have hb1 := DayFromYear_bounds (y - 1)
  have hb2 := DayFromYear_bounds (y + 1 + 1)
  have e1 : y - 1 + 1 = y := by omega
  split_ifs with h1 h2
  · rw [e1]; exact ⟨by omega, h1⟩
  · exact ⟨h2, by omega⟩
  · exact ⟨by omega, by omega⟩

theorem yearFromDay_unique {d y : Int} (h1 : DayFromYear y ≤ d) (h2 : d < DayFromYear (y + 1)) :
    yearFromDay d = y := by
  obtain ⟨s1, s2⟩ := yearFromDay_spec d
  rcases lt_trichotomy (yearFromDay d) y with h | h | h
  · have h3 : DayFromYear (yearFromDay d + 1) ≤ DayFromYear y := DayFromYear_le h
    omega
  · exact h
  · have h3 : DayFromYear (y + 1) ≤ DayFromYear (yearFromDay d) := DayFromYear_le h
    omega

theorem yearFromDay_mono {d1 d2 : Int} (h : d1 ≤ d2) : yearFromDay d1 ≤ yearFromDay d2 := by
  by_contra hc
  have h1 := (yearFromDay_spec d1).1
  have h2 := (yearFromDay_spec d2).2
  have h3 : DayFromYear (yearFromDay d2 + 1) ≤ DayFromYear (yearFromDay d1) :=
    DayFromYear_le (by omega)
  omega

theorem leapDays_cases (y : Int) : leapDays y = 0 ∨ leapDays y = 1 := by
  unfold leapDays
  split_ifs <;> simp

theorem DaysInYear_eq (y : Int) : DaysInYear y = 365 + leapDays y := by
  unfold leapDays DaysInYear
  split_ifs <;> simp_all

theorem DayWithinYear_range (t : Int) :
    0 ≤ DayWithinYear t ∧ DayWithinYear t < 365 + InLeapYear t := by
  unfold DayWithinYear InLeapYear YearFromTime
  obtain ⟨s1, s2⟩ := yearFromDay_spec (Day t)
  rw [DayFromYear_succ, DaysInYear_eq] at s2
  omega

theorem daysBeforeMonth_vals (l : Int) :
    daysBeforeMonth 0 l = 0 ∧ daysBeforeMonth 1 l = 31 ∧ daysBeforeMonth 2 l = 59 + l ∧
    daysBeforeMonth 3 l = 90 + l ∧ daysBeforeMonth 4 l = 120 + l ∧ daysBeforeMonth 5 l = 151 + l ∧
    daysBeforeMonth 6 l = 181 + l ∧ daysBeforeMonth 7 l = 212 + l ∧ daysBeforeMonth 8 l = 243 + l ∧
    daysBeforeMonth 9 l = 273 + l ∧ daysBeforeMonth 10 l = 304 + l ∧ daysBeforeMonth 11 l = 334 + l ∧
    daysBeforeMonth 12 l = 365 + l := by
  simp [daysBeforeMonth]

/-- The month table and the table of month starts agree. -/
theorem monthOfYearDay_roundtrip (dwy l m : Int) (hm : monthOfYearDay dwy l = m) (h0 : 0 ≤ dwy)
    (h1 : dwy < 365 + l) :
    0 ≤ m ∧ m ≤ 11 ∧ daysBeforeMonth m l ≤ dwy ∧ dwy < daysBeforeMonth (m + 1) l := by
  unfold monthOfYearDay at hm
  by_cases c0 : dwy < 31
  · rw [if_pos c0] at hm; subst hm; simp only [Int.reduceAdd, daysBeforeMonth_vals]; omega
  rw [if_neg c0] at hm
  by_cases c1 : dwy < 59 + l
  · rw [if_pos c1] at hm; subst hm; simp only [Int.reduceAdd, daysBeforeMonth_vals]; omega
  rw [if_neg c1] at hm
  by_cases c2 : dwy < 90 + l
  · rw [if_pos c2] at hm; subst hm; simp only [Int.reduceAdd, daysBeforeMonth_vals]; omega
  rw [if_neg c2] at hm
  by_cases c3 : dwy < 120 + l
  · rw [if_pos c3] at hm; subst hm; simp only [Int.reduceAdd, daysBeforeMonth_vals]; omega
  rw [if_neg c3] at hm
  by_cases c4 : dwy < 151 + l
  · rw [if_pos c4] at hm; subst hm; simp only [Int.reduceAdd, daysBeforeMonth_vals]; omega
  rw [if_neg c4] at hm
  by_cases c5 : dwy < 181 + l
  · rw [if_pos c5] at hm; subst hm; simp only [Int.reduceAdd, daysBeforeMonth_vals]; omega
  rw [if_neg c5] at hm
  by_cases c6 : dwy < 212 + l
  · rw [if_pos c6] at hm; subst hm; simp only [Int.reduceAdd, daysBeforeMonth_vals]; omega
  rw [if_neg c6] at hm
  by_cases c7 : dwy < 243 + l
  · rw [if_pos c7] at hm; subst hm; simp only [Int.reduceAdd, daysBeforeMonth_vals]; omega
  rw [if_neg c7] at hm
  by_cases c8 : dwy < 273 + l
  · rw [if_pos c8] at hm; subst hm; simp only [Int.reduceAdd, daysBeforeMonth_vals]; omega
  rw [if_neg c8] at hm
  by_cases c9 : dwy < 304 + l
  · rw [if_pos c9] at hm; subst hm; simp only [Int.reduceAdd, daysBeforeMonth_vals]; omega
  rw [if_neg c9] at hm
  by_cases c10 : dwy < 334 + l
  · rw [if_pos c10] at hm; subst hm; simp only [Int.reduceAdd, daysBeforeMonth_vals]; omega
  rw [if_neg c10] at hm
  subst hm; simp only [Int.reduceAdd, daysBeforeMonth_vals]; omega

theorem MonthFromTime_range (t : Int) :
    0 ≤ MonthFromTime t ∧ MonthFromTime t ≤ 11 ∧
      daysBeforeMonth (MonthFromTime t) (InLeapYear t) ≤ DayWithinYear t ∧
      DayWithinYear t < daysBeforeMonth (MonthFromTime t + 1) (InLeapYear t) :=
  monthOfYearDay_roundtrip (DayWithinYear t) (InLeapYear t) (MonthFromTime t) rfl
    (DayWithinYear_range t).1 (DayWithinYear_range t).2

/-- The calendar fields of a time value give back its day number, with carry-over
in the date. -/
theorem MakeDay_fields (t k : Int) :
    MakeDay (YearFromTime t) (MonthFromTime t) (DateFromTime t + k) = Day t + k := by
  have hm := MonthFromTime_range t
  unfold MakeDay
  simp only
  have e1 : MonthFromTime t / 12 = 0 := by omega
  have e2 : MonthFromTime t % 12 = MonthFromTime t := by omega
  rw [e1, e2, add_zero]
  unfold DateFromTime
  have e3 : leapDays (YearFromTime t) = InLeapYear t := rfl
  rw [e3]
  unfold DayWithinYear
  omega

theorem daysBeforeMonth_bounds (k l : Int) (hk : 0 ≤ k ∧ k ≤ 12) (hl : l = 0 ∨ l = 1) :
    61 * k - 4 ≤ 2 * daysBeforeMonth k l ∧ 2 * daysBeforeMonth k l ≤ 61 * k + 3 ∧
      0 ≤ daysBeforeMonth k l := by
  have hcases : k = 0 ∨ k = 1 ∨ k = 2 ∨ k = 3 ∨ k = 4 ∨ k = 5 ∨ k = 6 ∨ k = 7 ∨ k = 8 ∨
      k = 9 ∨ k = 10 ∨ k = 11 ∨ k = 12 := by omega
  rcases hcases with h | h | h | h | h | h | h | h | h | h | h | h | h <;>
    (subst h; simp only [daysBeforeMonth_vals]; omega)

/-- The closed form of `MakeDay` meets its definition in ECMA-262: the first day of
month `m` of year `y` is the day whose year is `y`, whose month is `m` and whose
date is 1. -/
theorem MakeDay_spec (y m : Int) (hm : 0 ≤ m ∧ m ≤ 11) :
    YearFromTime (MakeDate (MakeDay y m 1) 0) = y ∧
      MonthFromTime (MakeDate (MakeDay y m 1) 0) = m ∧
      DateFromTime (MakeDate (MakeDay y m 1) 0) = 1 := by
  have hl := leapDays_cases y
  have e1 : m / 12 = 0 := by omega
  have e2 : m % 12 = m := by omega
  have bm := daysBeforeMonth_bounds m (leapDays y) ⟨hm.1, by omega⟩ hl
  have bm1 := daysBeforeMonth_bounds (m + 1) (leapDays y) ⟨by omega, by omega⟩ hl
  have hday : Day (MakeDate (MakeDay y m 1) 0) =
      DayFromYear y + daysBeforeMonth m (leapDays y) := by
    unfold MakeDate MakeDay
    simp only [e1, e2, add_zero]
    unfold Day msPerDay
    omega
  have hb : 0 ≤ daysBeforeMonth m (leapDays y) ∧
      daysBeforeMonth m (leapDays y) < 365 + leapDays y := by
    rcases (show m = 11 ∨ m ≤ 10 by omega) with h | h
    · subst h
      have := (daysBeforeMonth_vals (leapDays y)).2.2.2.2.2.2.2.2.2.2.2.1
      omega
    · generalize daysBeforeMonth m (leapDays y) = a at bm
      omega
  have hyear : YearFromTime (MakeDate (MakeDay y m 1) 0) = y := by
    unfold YearFromTime
    rw [hday]
    apply yearFromDay_unique
    · omega
    · rw [DayFromYear_succ, DaysInYear_eq]; omega
  have hdwy : DayWithinYear (MakeDate (MakeDay y m 1) 0) = daysBeforeMonth m (leapDays y) := by
    unfold DayWithinYear
    rw [hyear, hday]
    omega
  have hleap : InLeapYear (MakeDate (MakeDay y m 1) 0) = leapDays y := by
    unfold InLeapYear
    rw [hyear]
  have hmonth : MonthFromTime (MakeDate (MakeDay y m 1) 0) = m := by
    unfold MonthFromTime
    rw [hdwy, hleap]
    obtain ⟨r1, r2, r3, r4⟩ := monthOfYearDay_roundtrip (daysBeforeMonth m (leapDays y))
      (leapDays y) _ rfl hb.1 hb.2
    generalize monthOfYearDay (daysBeforeMonth m (leapDays y)) (leapDays y) = k at r1 r2 r3 r4
    have bk := daysBeforeMonth_bounds k (leapDays y) ⟨r1, by omega⟩ hl
    have bk1 := daysBeforeMonth_bounds (k + 1) (leapDays y) ⟨by omega, by omega⟩ hl
    by_contra hne
    rcases lt_or_gt_of_ne hne with h | h
    · rcases (show k + 1 = m ∨ k + 2 ≤ m by omega) with e | e
      · rw [e] at r4
        exact lt_irrefl _ r4
      · generalize daysBeforeMonth m (leapDays y) = a at bm r4
        generalize daysBeforeMonth (k + 1) (leapDays y) = c at bk1 r4
        omega
    · generalize daysBeforeMonth m (leapDays y) = a at bm r3
      generalize daysBeforeMonth k (leapDays y) = c at bk r3
      omega
  refine ⟨hyear, hmonth, ?_⟩
  unfold DateFromTime
  rw [hmonth, hdwy, hleap]
  omega

/-! ## Grouping -/

section Grouping
variable {κ : Type} [DecidableEq κ]

theorem mem_firstSeen {l : List κ} {x : κ} : x ∈ firstSeen l ↔ x ∈ l := by
  induction l with
  | nil => simp [firstSeen]
  | cons k ks ih =>
    simp only [firstSeen, List.mem_cons, List.mem_filter, ih, decide_eq_true_eq]
    by_cases h : x = k <;> simp [h]

theorem nodup_firstSeen (l : List κ) : (firstSeen l).Nodup := by
  induction l with
  | nil => simp [firstSeen]
  | cons k ks ih =>
    simp only [firstSeen, List.nodup_cons, List.mem_filter, decide_eq_true_eq]
    exact ⟨fun h => h.2 rfl, ih.filter _⟩

theorem firstSeen_filter (p : κ → Bool) (l : List κ) :
    (firstSeen l).filter p = firstSeen (l.filter p) := by
  induction l with
  | nil => simp [firstSeen]
  | cons k ks ih =>
    by_cases hp : p k = true
    · simp only [firstSeen, List.filter_cons, hp, if_true]
      rw [List.filter_comm, ih]
    · simp only [firstSeen, List.filter_cons, hp, Bool.false_eq_true, if_false]
      rw [← ih, List.filter_filter]
      apply List.filter_congr
      intro x _
      by_cases hx : p x = true
      · have : x ≠ k := fun e => hp (e ▸ hx)
        simp [hx, this]
      · simp [hx]

theorem firstSeen_map_of_injOn {ι : Type} [DecidableEq ι] (φ : κ → ι) (l : List κ)
    (hinj : ∀ a ∈ l, ∀ b ∈ l, φ a = φ b → a = b) :
    firstSeen (l.map φ) = (firstSeen l).map φ := by
  induction l with
  | nil => simp [firstSeen]
  | cons k ks ih =>
    have ih' := ih (fun a ha b hb => hinj a (List.mem_cons_of_mem _ ha) b (List.mem_cons_of_mem _ hb))
    simp only [List.map_cons, firstSeen, ih', List.filter_map]
    congr 2
    apply List.filter_congr
    intro x hx
    have hx' : x ∈ ks := mem_firstSeen.1 hx
    have : φ x = φ k ↔ x = k :=
      ⟨hinj x (List.mem_cons_of_mem _ hx') k (List.mem_cons_self _ _), fun e => e ▸ rfl⟩
    simp [this]
theorem sum_map_ite_eq_of_nodup {M : Type} [AddCommMonoid M] (K : List κ) (a : κ) (c : M)
    (hK : K.Nodup) (ha : a ∈ K) : (K.map (fun k => if a = k then c else 0)).sum = c := by
  induction K with
  | nil => simp at ha
  | cons k ks ih =>
    rw [List.nodup_cons] at hK
    simp only [List.map_cons, List.sum_cons]
    by_cases h : a = k
    · subst h
      have hz : (ks.map (fun k => if a = k then c else 0)).sum = 0 := by
        apply List.sum_eq_zero
        intro x hx
        simp only [List.mem_map] at hx
        obtain ⟨k, hk, rfl⟩ := hx
        have : a ≠ k := fun e => hK.1 (e ▸ hk)
        simp [this]
      simp [hz]
    · have ha' : a ∈ ks := by
        rcases List.mem_cons.1 ha with e | e
        · exact absurd e h
        · exact e
      simp [h, ih hK.2 ha']

/-- Summing group by group is summing the whole list. -/
theorem sum_groups {α M : Type} [AddCommMonoid M] (key : α → κ) (f : α → M) (l : List α)
    (K : List κ) (hK : K.Nodup) (hl : ∀ x ∈ l, key x ∈ K) :
    (K.map (fun k => ((l.filter (fun x => decide (key x = k))).map f).sum)).sum =
      (l.map f).sum := by
  induction l with
  | nil => simp
  | cons x xs ih =>
    have hx : key x ∈ K := hl x (List.mem_cons_self _ _)
    have hxs : ∀ y ∈ xs, key y ∈ K := fun y hy => hl y (List.mem_cons_of_mem _ hy)
    have e : ∀ k, (((x :: xs).filter (fun x => decide (key x = k))).map f).sum =
        (if key x = k then f x else 0) +
          ((xs.filter (fun x => decide (key x = k))).map f).sum := by
      intro k
      by_cases h : key x = k <;> simp [List.filter_cons, h]
    simp only [e, List.sum_map_add, sum_map_ite_eq_of_nodup K (key x) (f x) hK hx, ih hxs,
      List.map_cons, List.sum_cons]

theorem length_groups {α : Type} (key : α → κ) (l : List α) (K : List κ) (hK : K.Nodup)
    (hl : ∀ x ∈ l, key x ∈ K) :
    (K.map (fun k => (l.filter (fun x => decide (key x = k))).length)).sum = l.length := by
  have h := sum_groups key (fun _ => (1 : Nat)) l K hK hl
  simpa using h

end Grouping

/-! ## The summary loop -/

theorem foldl_add_eq_sum {α : Type} (g : α → ℚ) (l : List α) (a : ℚ) :
    l.foldl (fun s m => s + g m) a = a + (l.map g).sum := by
  induction l generalizing a with
  | nil => simp
  | cons x xs ih => simp [ih, add_assoc]

theorem foldl_loopStep (byMeal : List MealAgg) (s : LoopState) :
    (byMeal.foldl loopStep s).topMeals =
        s.topMeals ++ byMeal.map (fun m => { mealId := m._id, avgRating := m.avgRating, count := m.count }) ∧
      (byMeal.foldl loopStep s).totalRatings = s.totalRatings + (byMeal.map (fun m => m.count)).sum ∧
      (byMeal.foldl loopStep s).dailyMap =
        (byMeal.flatMap (fun m => m.daily)).foldl (fun m d => mergeDay d m) s.dailyMap := by
  induction byMeal generalizing s with
  | nil => simp
  | cons m ms ih =>
    simp only [List.foldl_cons, List.map_cons, List.sum_cons, List.flatMap_cons, List.foldl_append]
    obtain ⟨h1, h2, h3⟩ := ih (loopStep s m)
    refine ⟨?_, ?_, ?_⟩
    · rw [h1]; simp [loopStep]
    · rw [h2]; simp [loopStep, add_assoc]
    · rw [h3]; simp [loopStep]

theorem summaryLoop_topMeals (byMeal : List MealAgg) :
    (summaryLoop byMeal).topMeals =
      byMeal.map (fun m => { mealId := m._id, avgRating := m.avgRating, count := m.count }) := by
  simpa [summaryLoop] using (foldl_loopStep byMeal { topMeals := [], totalRatings := 0, dailyMap := [] }).1

theorem summaryLoop_totalRatings (byMeal : List MealAgg) :
    (summaryLoop byMeal).totalRatings = (byMeal.map (fun m => m.count)).sum := by
  simpa [summaryLoop] using (foldl_loopStep byMeal { topMeals := [], totalRatings := 0, dailyMap := [] }).2.1

theorem summaryLoop_dailyMap (byMeal : List MealAgg) :
    (summaryLoop byMeal).dailyMap =
      (byMeal.flatMap (fun m => m.daily)).foldl (fun m d => mergeDay d m) [] := by
  simpa [summaryLoop] using (foldl_loopStep byMeal { topMeals := [], totalRatings := 0, dailyMap := [] }).2.2

/-! ## The pipeline -/

theorem addDayField_cons {r : Rating} {rs : List Rating} {ds : List DatedRating}
    (h : addDayField (r :: rs) = some ds) :
    ∃ day ds', dateToString r.createdAt = some day ∧ addDayField rs = some ds' ∧
      ds = { doc := r, day := day } :: ds' := by
  rw [addDayField] at h
  cases h1 : dateToString r.createdAt with
  | none => rw [h1] at h; simp at h
  | some day =>
    cases h2 : addDayField rs with
    | none => rw [h1, h2] at h; simp at h
    | some ds' =>
      rw [h1, h2] at h
      simp only [Option.some_bind, Option.map_some', Option.some.injEq] at h
      exact ⟨day, ds', rfl, rfl, h.symm⟩

theorem addDayField_doc {rs : List Rating} {ds : List DatedRating}
    (h : addDayField rs = some ds) : ds.map (fun d => d.doc) = rs := by
  induction rs generalizing ds with
  | nil => simp [addDayField] at h; simp [← h]
  | cons r rs ih =>
    obtain ⟨day, ds', _, h2, rfl⟩ := addDayField_cons h
    simp [ih h2]

theorem addDayField_day {rs : List Rating} {ds : List DatedRating}
    (h : addDayField rs = some ds) : ∀ d ∈ ds, dateToString d.doc.createdAt = some d.day := by
  induction rs generalizing ds with
  | nil => simp [addDayField] at h; subst h; intro d hd; cases hd
  | cons r rs ih =>
    obtain ⟨day, ds', h1, h2, rfl⟩ := addDayField_cons h
    intro d hd
    rcases List.mem_cons.1 hd with e | e
    · subst e; exact h1
    · exact ih h2 d e

theorem groupByMealDay_count_sum (docs : List DatedRating) :
    ((groupByMealDay docs).map (fun g => g.count)).sum = docs.length := by
  unfold groupByMealDay
  rw [List.map_map]
  exact length_groups (fun d => (d.doc.mealId, d.day)) docs _ (nodup_firstSeen _)
    (fun x hx => mem_firstSeen.2 (List.mem_map_of_mem _ hx))

theorem groupByMeal_count_sum (gs : List DayGroup) :
    ((groupByMeal gs).map (fun m => m.count)).sum = (gs.map (fun g => g.count)).sum := by
  unfold groupByMeal
  rw [List.map_map]
  exact sum_groups (fun g => g.mealId) (fun g => g.count) gs _ (nodup_firstSeen _)
    (fun x hx => mem_firstSeen.2 (List.mem_map_of_mem _ hx))

theorem sortStage_perm (ms : List MealAgg) : (sortStage ms).Perm ms :=
  List.perm_insertionSort _ ms

theorem groupAndSort_count_sum (docs : List DatedRating) :
    ((groupAndSort docs).map (fun m => m.count)).sum = docs.length := by
  unfold groupAndSort
  rw [((sortStage_perm _).map _).sum_eq, groupByMeal_count_sum, groupByMealDay_count_sum]

/-- The aggregate call returns the grouped and sorted matching ratings. -/
theorem aggregate_some {c : String} {s e : Int} {rs : List Rating} {byMeal : List MealAgg}
    (h : aggregate c s e rs = some byMeal) :
    ∃ docs, addDayField (matchStage c s e rs) = some docs ∧ byMeal = groupAndSort docs := by
  unfold aggregate at h
  cases hd : addDayField (matchStage c s e rs) with
  | none => simp [hd] at h
  | some docs => simp [hd] at h; exact ⟨docs, rfl, h.symm⟩

theorem aggregate_count_sum {c : String} {s e : Int} {rs : List Rating} {byMeal : List MealAgg}
    (h : aggregate c s e rs = some byMeal) :
    (byMeal.map (fun m => m.count)).sum = (matchStage c s e rs).length := by
  obtain ⟨docs, hd, rfl⟩ := aggregate_some h
  rw [groupAndSort_count_sum, ← addDayField_doc hd, List.length_map]

/-! ## The report-level average -/

/-- With at least one matching rating `totalRatings` is not zero and the
report-level `avgRating` is the sum over `topMeals` of `avgRating * count`,
divided by `totalRatings`. -/
theorem buildSummary_avgRating (c : String) (s e : Int) (rs : List Rating)
    (byMeal : List MealAgg) (ws we : String)
    (hagg : aggregate c s e rs = some byMeal)
    (hmatch : ∃ r ∈ rs, r.canteenId = c ∧ s ≤ r.createdAt ∧ r.createdAt < e) :
    (buildSummary c ws we byMeal).totalRatings ≠ 0 ∧
      (buildSummary c ws we byMeal).avgRating =
        ((buildSummary c ws we byMeal).topMeals.map
            (fun m => m.avgRating * (m.count : ℚ))).sum /
          ((buildSummary c ws we byMeal).totalRatings : ℚ) := by
  have htot : (summaryLoop byMeal).totalRatings ≠ 0 := by
    rw [summaryLoop_totalRatings, aggregate_count_sum hagg]
    obtain ⟨r, hr, h1, h2, h3⟩ := hmatch
    have hmem : r ∈ matchStage c s e rs := by
      unfold matchStage
      exact List.mem_filter.2 ⟨hr, by simp [h1, h2, h3]⟩
    exact Nat.pos_iff_ne_zero.1 (List.length_pos_of_mem hmem)
  refine ⟨htot, ?_⟩
  show reportAvg (summaryLoop byMeal).topMeals (summaryLoop byMeal).totalRatings = _
  unfold reportAvg
  rw [if_neg htot, foldl_add_eq_sum, zero_add]
  rfl

/-! ## Date strings -/

theorem digitVal_digitChar (n : Nat) : digitVal (digitChar n) = some (n % 10) := by
  have h : ∀ k, k < 10 → digitVal (Char.ofNat (48 + k)) = some k := by decide
  exact h (n % 10) (Nat.mod_lt _ (by decide))

theorem digitChar_ne_sign (n : Nat) : digitChar n ≠ '+' ∧ digitChar n ≠ '-' := by
  have h : ∀ k, k < 10 → Char.ofNat (48 + k) ≠ '+' ∧ Char.ofNat (48 + k) ≠ '-' := by decide
  exact h (n % 10) (Nat.mod_lt _ (by decide))

theorem readDigits_two (a b : Nat) :
    readDigits [digitChar a, digitChar b] 0 = some (a % 10 * 10 + b % 10) := by
  simp [readDigits, digitVal_digitChar]

theorem readDigits_four (a b c d : Nat) :
    readDigits [digitChar a, digitChar b, digitChar c, digitChar d] 0 =
      some (((a % 10 * 10 + b % 10) * 10 + c % 10) * 10 + d % 10) := by
  simp [readDigits, digitVal_digitChar]

/-- Reading back a printed date gives its day number. -/
theorem parseDateOnly_print (y m d : Int) (hy : 0 ≤ y ∧ y ≤ 9999) (hm : 0 ≤ m ∧ m ≤ 11)
    (hd : 1 ≤ d ∧ d ≤ daysBeforeMonth (m + 1) (leapDays y) - daysBeforeMonth m (leapDays y)) :
    parseDateOnly (padDigits 4 y.toNat ++ '-' :: padDigits 2 (m + 1).toNat ++
      '-' :: padDigits 2 d.toNat) = some (MakeDay y m d) := by
  have hv := daysBeforeMonth_vals (leapDays y)
  have hl := leapDays_cases y
  obtain ⟨Y, rfl⟩ := Int.eq_ofNat_of_zero_le hy.1
  obtain ⟨M, hM⟩ := Int.eq_ofNat_of_zero_le (show 0 ≤ m + 1 by omega)
  obtain ⟨D, rfl⟩ := Int.eq_ofNat_of_zero_le (show 0 ≤ d by omega)
  have hm' : m = (M : Int) - 1 := by omega
  subst hm'
  have hD : D < 32 := by
    have : ((M : Int) - 1 = 0 ∨ (M : Int) - 1 = 1 ∨ (M : Int) - 1 = 2 ∨ (M : Int) - 1 = 3 ∨
        (M : Int) - 1 = 4 ∨ (M : Int) - 1 = 5 ∨ (M : Int) - 1 = 6 ∨ (M : Int) - 1 = 7 ∨
        (M : Int) - 1 = 8 ∨ (M : Int) - 1 = 9 ∨ (M : Int) - 1 = 10 ∨ (M : Int) - 1 = 11) := by
      omega
    rcases this with h | h | h | h | h | h | h | h | h | h | h | h <;>
      (rw [h] at hd; simp only [Int.reduceAdd, hv] at hd; omega)
  rw [hM]
  simp only [Int.toNat_ofNat, padDigits, List.nil_append, List.cons_append, List.singleton_append]
  unfold parseDateOnly
  simp only [digitChar_ne_sign, or_self, if_false, readDigits_four]
  have eY : ((Y / 10 / 10 / 10 % 10 * 10 + Y / 10 / 10 % 10) * 10 + Y / 10 % 10) * 10 + Y % 10 = Y := by
    omega
  have eM : M / 10 % 10 * 10 + M % 10 = M := by omega
  have eD : D / 10 % 10 * 10 + D % 10 = D := by omega
  rw [eY]
  unfold parseMonthDay
  simp only [and_self, if_true, readDigits_two, eM, eD]
  have e1 : (M : Int) - 1 + 1 = M := by omega
  rw [e1] at hd
  rw [if_pos ⟨by omega, by omega, by omega, hd.2⟩]

theorem DateFromTime_range (t : Int) :
    1 ≤ DateFromTime t ∧
      DateFromTime t ≤ daysBeforeMonth (MonthFromTime t + 1) (leapDays (YearFromTime t)) -
        daysBeforeMonth (MonthFromTime t) (leapDays (YearFromTime t)) := by
  have hm := MonthFromTime_range t
  have e : leapDays (YearFromTime t) = InLeapYear t := rfl
  rw [e]
  unfold DateFromTime
  omega

/-- The day string of the pipeline reads back as the day number of the instant. -/
theorem dateToString_parse {t : Int} {str : String} (h : dateToString t = some str) :
    parseDateOnly str.data = some (Day t) := by
  unfold dateToString at h
  split_ifs at h with hy
  simp only [Option.some.injEq] at h
  subst h
  have hm := MonthFromTime_range t
  rw [parseDateOnly_print _ _ _ hy ⟨hm.1, hm.2.1⟩ (DateFromTime_range t)]
  have := MakeDay_fields t 0
  simp only [add_zero] at this
  rw [this]

theorem dateToString_congr {t1 t2 : Int} (h : Day t1 = Day t2) :
    dateToString t1 = dateToString t2 := by
  simp only [dateToString, MonthFromTime, DateFromTime, DayWithinYear, InLeapYear, YearFromTime, h]

/-- Two instants have the same day string exactly when they fall on the same UTC day. -/
theorem dateToString_inj {t1 t2 : Int} {a b : String} (h1 : dateToString t1 = some a)
    (h2 : dateToString t2 = some b) : a = b ↔ Day t1 = Day t2 := by
  constructor
  · intro e
    subst e
    have p1 := dateToString_parse h1
    have p2 := dateToString_parse h2
    rw [p1] at p2
    exact Option.some.inj p2
  · intro e
    rw [dateToString_congr e, h2] at h1
    exact (Option.some.inj h1).symm

theorem isoDateOnly_eq_dateToString (t : Int)
    (hy : 0 ≤ YearFromTime t ∧ YearFromTime t ≤ 9999) :
    isoDateOnly (some t) = dateToString t := by
  show some (String.mk ((isoChars t).take 10)) = dateToString t
  unfold dateToString isoChars isoYear
  rw [if_pos hy, if_pos hy]
  simp [padDigits]

/-! ## The per-meal aggregates -/

theorem groupByMealDay_filter (docs : List DatedRating) (k : String) :
    (groupByMealDay docs).filter (fun x => decide (x.mealId = k)) =
      (firstSeen ((docs.filter (fun d => decide (d.doc.mealId = k))).map (fun d => d.day))).map
        (fun str => dayGroupOf docs (k, str)) := by
  unfold groupByMealDay
  rw [List.filter_map]
  have e1 : ((fun x : DayGroup => decide (x.mealId = k)) ∘ dayGroupOf docs) =
      (fun key : String × String => decide (key.1 = k)) := rfl
  rw [e1, firstSeen_filter, List.filter_map]
  have e2 : ((fun key : String × String => decide (key.1 = k)) ∘
      (fun d : DatedRating => (d.doc.mealId, d.day))) = (fun d => decide (d.doc.mealId = k)) := rfl
  rw [e2]
  have e3 : (docs.filter (fun d => decide (d.doc.mealId = k))).map
        (fun d => (d.doc.mealId, d.day)) =
      ((docs.filter (fun d => decide (d.doc.mealId = k))).map (fun d => d.day)).map
        (fun str => (k, str)) := by
    rw [List.map_map]
    apply List.map_congr_left
    intro d hd
    have := (List.mem_filter.1 hd).2
    simp only [decide_eq_true_eq] at this
    simp [this]
  rw [e3, firstSeen_map_of_injOn _ _ (fun a _ b _ h => (Prod.mk.inj h).2), List.map_map]
  rfl

theorem dayNumber_day {docs : List DatedRating}
    (hday : ∀ d ∈ docs, dateToString d.doc.createdAt = some d.day) {d : DatedRating}
    (hd : d ∈ docs) : dayNumber d.day = Day d.doc.createdAt := by
  unfold dayNumber
  rw [dateToString_parse (hday d hd)]
  rfl

theorem mealDays_eq {docs : List DatedRating}
    (hday : ∀ d ∈ docs, dateToString d.doc.createdAt = some d.day) (k : String) :
    mealDays (docs.map (fun d => d.doc)) k =
      (firstSeen ((docs.filter (fun d => decide (d.doc.mealId = k))).map (fun d => d.day))).map
        dayNumber := by
  unfold mealDays
  rw [List.filter_map, List.map_map]
  have e1 : (docs.filter ((fun r : Rating => decide (r.mealId = k)) ∘ fun d => d.doc)).map
        ((fun r : Rating => Day r.createdAt) ∘ fun d => d.doc) =
      ((docs.filter (fun d => decide (d.doc.mealId = k))).map (fun d => d.day)).map dayNumber := by
    rw [List.map_map]
    apply List.map_congr_left
    intro d hd
    exact (dayNumber_day hday (List.mem_filter.1 hd).1).symm
  rw [e1]
  apply firstSeen_map_of_injOn
  intro a ha b hb hab
  obtain ⟨d1, hd1, rfl⟩ := List.mem_map.1 ha
  obtain ⟨d2, hd2, rfl⟩ := List.mem_map.1 hb
  have m1 := (List.mem_filter.1 hd1).1
  have m2 := (List.mem_filter.1 hd2).1
  rw [dayNumber_day hday m1, dayNumber_day hday m2] at hab
  exact (dateToString_inj (hday d1 m1) (hday d2 m2)).2 hab

theorem dayRatings_eq {docs : List DatedRating}
    (hday : ∀ d ∈ docs, dateToString d.doc.createdAt = some d.day) (k : String)
    {d0 : DatedRating} (hd0 : d0 ∈ docs) :
    (docs.filter (fun d => decide ((d.doc.mealId, d.day) = (k, d0.day)))).map
        (fun d => d.doc.rating) =
      dayRatings (docs.map (fun d => d.doc)) k (dayNumber d0.day) := by
  unfold dayRatings
  rw [List.filter_map, List.map_map]
  congr 1
  apply List.filter_congr
  intro d hd
  have h := dateToString_inj (hday d hd) (hday d0 hd0)
  simp only [Function.comp, Prod.mk.injEq, dayNumber_day hday hd0, h]

theorem mealAggOf_spec {docs : List DatedRating}
    (hday : ∀ d ∈ docs, dateToString d.doc.createdAt = some d.day) (k : String) :
    (mealAggOf (groupByMealDay docs) k).avgRating =
        meanOfDailyMeans (docs.map (fun d => d.doc)) k ∧
      (mealAggOf (groupByMealDay docs) k).count =
        sumOfDailyCounts (docs.map (fun d => d.doc)) k := by
  have key : ∀ str ∈ firstSeen ((docs.filter (fun d => decide (d.doc.mealId = k))).map
      (fun d => d.day)),
      (docs.filter (fun d => decide ((d.doc.mealId, d.day) = (k, str)))).map
          (fun d => d.doc.rating) =
        dayRatings (docs.map (fun d => d.doc)) k (dayNumber str) := by
    intro str hstr
    obtain ⟨d0, hd0, rfl⟩ := List.mem_map.1 (mem_firstSeen.1 hstr)
    exact dayRatings_eq hday k (List.mem_filter.1 hd0).1
  constructor
  · show mongoAvg (((groupByMealDay docs).filter (fun x => decide (x.mealId = k))).map
      (fun x => x.avgRating)) = _
    unfold meanOfDailyMeans
    rw [groupByMealDay_filter, mealDays_eq hday, List.map_map, List.map_map]
    show mean _ = mean _
    congr 1
    apply List.map_congr_left
    intro str hstr
    show mongoAvg ((docs.filter (fun d => decide ((d.doc.mealId, d.day) = (k, str)))).map
      (fun d => d.doc.rating)) = _
    rw [key str hstr]
    rfl
  · show (((groupByMealDay docs).filter (fun x => decide (x.mealId = k))).map
      (fun x => x.count)).sum = _
    unfold sumOfDailyCounts
    rw [groupByMealDay_filter, mealDays_eq hday, List.map_map, List.map_map]
    congr 1
    apply List.map_congr_left
    intro str hstr
    show (docs.filter (fun d => decide ((d.doc.mealId, d.day) = (k, str)))).length =
      (dayRatings (docs.map (fun d => d.doc)) k (dayNumber str)).length
    rw [← key str hstr, List.length_map]

theorem mem_groupByMealDay {docs : List DatedRating} {g : DayGroup}
    (h : g ∈ groupByMealDay docs) : ∃ d ∈ docs, g = dayGroupOf docs (d.doc.mealId, d.day) := by
  unfold groupByMealDay at h
  obtain ⟨key, hk, rfl⟩ := List.mem_map.1 h
  obtain ⟨d, hd, rfl⟩ := List.mem_map.1 (mem_firstSeen.1 hk)
  exact ⟨d, hd, rfl⟩

theorem mem_groupAndSort {docs : List DatedRating} {a : MealAgg} (h : a ∈ groupAndSort docs) :
    ∃ d ∈ docs, a = mealAggOf (groupByMealDay docs) d.doc.mealId := by
  unfold groupAndSort at h
  have h1 : a ∈ groupByMeal (groupByMealDay docs) := (sortStage_perm _).mem_iff.1 h
  unfold groupByMeal at h1
  obtain ⟨k, hk, rfl⟩ := List.mem_map.1 h1
  obtain ⟨g, hg, rfl⟩ := List.mem_map.1 (mem_firstSeen.1 hk)
  obtain ⟨d, hd, rfl⟩ := mem_groupByMealDay hg
  exact ⟨d, hd, rfl⟩

/-- Every entry of `topMeals` belongs to a meal with at least one matching rating;
its `avgRating` is the mean over the UTC days of the meal of the mean rating of
each day, and its `count` is the sum of the per-day counts. -/
theorem buildSummary_topMeals_mean (c : String) (s e : Int) (rs : List Rating)
    (byMeal : List MealAgg) (ws we : String) (hagg : aggregate c s e rs = some byMeal) :
    ∀ m ∈ (buildSummary c ws we byMeal).topMeals,
      mealDays (matchStage c s e rs) m.mealId ≠ [] ∧
      (∀ d ∈ mealDays (matchStage c s e rs) m.mealId,
        dayRatings (matchStage c s e rs) m.mealId d ≠ []) ∧
      m.avgRating = meanOfDailyMeans (matchStage c s e rs) m.mealId ∧
      m.count = sumOfDailyCounts (matchStage c s e rs) m.mealId := by
  obtain ⟨docs, hd, rfl⟩ := aggregate_some hagg
  have hday := addDayField_day hd
  have hdoc := addDayField_doc hd
  intro m hm
  have hm' : m ∈ (summaryLoop (groupAndSort docs)).topMeals := hm
  rw [summaryLoop_topMeals] at hm'
  obtain ⟨a, ha, rfl⟩ := List.mem_map.1 hm'
  obtain ⟨d0, hd0, rfl⟩ := mem_groupAndSort ha
  obtain ⟨h1, h2⟩ := mealAggOf_spec hday d0.doc.mealId
  rw [hdoc] at h1 h2
  have hr0 : d0.doc ∈ matchStage c s e rs := by
    rw [← hdoc]; exact List.mem_map_of_mem _ hd0
  refine ⟨?_, ?_, h1, h2⟩
  · have : Day d0.doc.createdAt ∈ mealDays (matchStage c s e rs) d0.doc.mealId := by
      unfold mealDays
      apply mem_firstSeen.2
      exact List.mem_map.2 ⟨d0.doc, List.mem_filter.2 ⟨hr0, by simp⟩, rfl⟩
    exact List.ne_nil_of_mem this
  · intro d hdm
    unfold mealDays at hdm
    obtain ⟨r, hr, rfl⟩ := List.mem_map.1 (mem_firstSeen.1 hdm)
    have hr' := List.mem_filter.1 hr
    have hk : r.mealId = d0.doc.mealId := by simpa using hr'.2
    have : r.rating ∈ dayRatings (matchStage c s e rs) d0.doc.mealId (Day r.createdAt) := by
      unfold dayRatings
      exact List.mem_map.2 ⟨r, List.mem_filter.2 ⟨hr'.1, by simp [hk]⟩, rfl⟩
    exact List.ne_nil_of_mem this

/-! ## The examples of the specification -/

theorem dateToString_monday1 : dateToString 1757940900000 = some "2025-09-15" := by decide

theorem dateToString_monday2 : dateToString 1757940960000 = some "2025-09-15" := by decide

theorem dateToString_monday3 : dateToString 1757941000000 = some "2025-09-15" := by decide

theorem dateToString_tuesday : dateToString 1758027300000 = some "2025-09-16" := by decide

theorem aggregate_weightedExample :
    aggregate "canteen_01" 1757894400000 1758499200000 weightedExample =
      some [{ _id := "A"
              daily := [{ day := "2025-09-15", count := 2, avgRating := 5, sumRating := 10 }]
              avgRating := 5, count := 2 },
            { _id := "B"
              daily := [{ day := "2025-09-15", count := 1, avgRating := 1, sumRating := 1 }]
              avgRating := 1, count := 1 }] := by
  simp [weightedExample, aggregate, matchStage, addDayField, dateToString_monday1,
    dateToString_monday2, dateToString_monday3, groupAndSort, groupByMealDay, dayGroupOf,
    firstSeen, groupByMeal, mealAggOf, sortStage, mongoAvg, sortBefore]
  norm_num

theorem aggregate_twoDayExample :
    aggregate "canteen_01" 1757894400000 1758499200000 twoDayExample =
      some [{ _id := "A"
              daily := [{ day := "2025-09-15", count := 2, avgRating := 4, sumRating := 8 },
                        { day := "2025-09-16", count := 1, avgRating := 2, sumRating := 2 }]
              avgRating := 3, count := 3 }] := by
  simp [twoDayExample, aggregate, matchStage, addDayField, dateToString_monday1,
    dateToString_monday2, dateToString_tuesday, groupAndSort, groupByMealDay, dayGroupOf,
    firstSeen, groupByMeal, mealAggOf, sortStage, mongoAvg, sortBefore]
  norm_num

/-! ## The order of `topMeals` -/

theorem sortBefore_total (a b : MealAgg) : sortBefore a b ∨ sortBefore b a := by
  unfold sortBefore
  rcases lt_trichotomy a.avgRating b.avgRating with h | h | h
  · exact Or.inr (Or.inl h)
  · rcases Nat.le_total a.count b.count with h' | h'
    · exact Or.inr (Or.inr ⟨h.symm, h'⟩)
    · exact Or.inl (Or.inr ⟨h, h'⟩)
  · exact Or.inl (Or.inl h)

theorem sortBefore_trans (a b c : MealAgg) (h1 : sortBefore a b) (h2 : sortBefore b c) :
    sortBefore a c := by
  unfold sortBefore at *
  rcases h1 with h1 | ⟨e1, c1⟩ <;> rcases h2 with h2 | ⟨e2, c2⟩
  · exact Or.inl (lt_trans h2 h1)
  · exact Or.inl (e2 ▸ h1)
  · exact Or.inl (e1 ▸ h2)
  · exact Or.inr ⟨e1.trans e2, le_trans c2 c1⟩

instance : IsTotal MealAgg sortBefore := ⟨sortBefore_total⟩

instance : IsTrans MealAgg sortBefore := ⟨sortBefore_trans⟩

theorem sortStage_sorted (ms : List MealAgg) : (sortStage ms).Pairwise sortBefore :=
  List.sorted_insertionSort sortBefore ms

theorem groupByMeal_ids (gs : List DayGroup) :
    (groupByMeal gs).map (fun a => a._id) = firstSeen (gs.map (fun g => g.mealId)) := by
  unfold groupByMeal
  rw [List.map_map]
  exact List.map_id' _

theorem groupByMealDay_mealIds_mem {docs : List DatedRating} {k : String} :
    k ∈ (groupByMealDay docs).map (fun g => g.mealId) ↔ ∃ d ∈ docs, d.doc.mealId = k := by
  unfold groupByMealDay
  rw [List.map_map]
  constructor
  · intro h
    obtain ⟨key, hk, rfl⟩ := List.mem_map.1 h
    obtain ⟨d, hd, rfl⟩ := List.mem_map.1 (mem_firstSeen.1 hk)
    exact ⟨d, hd, rfl⟩
  · rintro ⟨d, hd, rfl⟩
    exact List.mem_map.2 ⟨(d.doc.mealId, d.day),
      mem_firstSeen.2 (List.mem_map_of_mem _ hd), rfl⟩

/-- The list `topMeals` is ordered by `avgRating` descending with ties ordered by
`count` descending; its meal ids are pairwise distinct and are exactly the meal
ids of the matching ratings. -/
theorem buildSummary_topMeals_sorted (c : String) (s e : Int) (rs : List Rating)
    (byMeal : List MealAgg) (ws we : String) (hagg : aggregate c s e rs = some byMeal) :
    (∀ (i j : Nat) (a b : TopMeal), i < j →
        (buildSummary c ws we byMeal).topMeals[i]? = some a →
        (buildSummary c ws we byMeal).topMeals[j]? = some b →
        b.avgRating < a.avgRating ∨ (a.avgRating = b.avgRating ∧ b.count ≤ a.count)) ∧
      ((buildSummary c ws we byMeal).topMeals.map (fun m => m.mealId)).Nodup ∧
      (∀ k : String, k ∈ (buildSummary c ws we byMeal).topMeals.map (fun m => m.mealId) ↔
        ∃ r ∈ rs, Matches c s e r ∧ r.mealId = k) := by
  obtain ⟨docs, hd, rfl⟩ := aggregate_some hagg
  have hdoc := addDayField_doc hd
  have htop : (buildSummary c ws we (groupAndSort docs)).topMeals =
      (groupAndSort docs).map
        (fun m => { mealId := m._id, avgRating := m.avgRating, count := m.count }) :=
    summaryLoop_topMeals _
  have hids : (buildSummary c ws we (groupAndSort docs)).topMeals.map (fun m => m.mealId) =
      (groupAndSort docs).map (fun a => a._id) := by
    rw [htop, List.map_map]; rfl
  have hperm : ((groupAndSort docs).map (fun a => a._id)).Perm
      (firstSeen ((groupByMealDay docs).map (fun g => g.mealId))) := by
    rw [← groupByMeal_ids]
    exact (sortStage_perm _).map _
  refine ⟨?_, ?_, ?_⟩
  · have hs : ((groupAndSort docs).map (fun m : MealAgg =>
        ({ mealId := m._id, avgRating := m.avgRating, count := m.count } : TopMeal))).Pairwise
        (fun a b => b.avgRating < a.avgRating ∨ (a.avgRating = b.avgRating ∧ b.count ≤ a.count)) := by
      rw [List.pairwise_map]
      exact sortStage_sorted _
    rw [← htop] at hs
    intro i j a b hij ha hb
    obtain ⟨hi, rfl⟩ := List.getElem?_eq_some_iff.1 ha
    obtain ⟨hj, rfl⟩ := List.getElem?_eq_some_iff.1 hb
    exact List.pairwise_iff_getElem.1 hs i j hi hj hij
  · rw [hids]
    exact hperm.nodup_iff.2 (nodup_firstSeen _)
  · intro k
    rw [hids, hperm.mem_iff, mem_firstSeen, groupByMealDay_mealIds_mem]
    constructor
    · rintro ⟨d, hdm, rfl⟩
      have hr : d.doc ∈ matchStage c s e rs := by
        rw [← hdoc]; exact List.mem_map_of_mem _ hdm
      have hr' := List.mem_filter.1 hr
      exact ⟨d.doc, hr'.1, by simpa [Matches] using hr'.2, rfl⟩
    · rintro ⟨r, hr, hm, rfl⟩
      have hr' : r ∈ matchStage c s e rs :=
        List.mem_filter.2 ⟨hr, by simpa [Matches] using hm⟩
      rw [← hdoc] at hr'
      obtain ⟨d, hdm, rfl⟩ := List.mem_map.1 hr'
      exact ⟨d, hdm, rfl⟩

/-! ## The daily map -/

theorem mergeDay_keys (d : DailyItem) (M : List (String × DayAcc)) (k : String) :
    k ∈ (mergeDay d M).map (fun e => e.1) ↔ k = d.day ∨ k ∈ M.map (fun e => e.1) := by
  induction M with
  | nil => simp [mergeDay]
  | cons p rest ih =>
    obtain ⟨k0, a⟩ := p
    unfold mergeDay
    by_cases h : k0 = d.day
    · rw [if_pos h]
      simp only [List.map_cons, List.mem_cons]
      constructor
      · intro hk; exact Or.inr hk
      · rintro (hk | hk)
        · exact Or.inl (hk.trans h.symm)
        · exact hk
    · rw [if_neg h]
      simp only [List.map_cons, List.mem_cons, ih]
      tauto

theorem mergeDay_nodup (d : DailyItem) (M : List (String × DayAcc))
    (hM : (M.map (fun e => e.1)).Nodup) : ((mergeDay d M).map (fun e => e.1)).Nodup := by
  induction M with
  | nil => simp [mergeDay]
  | cons p rest ih =>
    obtain ⟨k0, a⟩ := p
    simp only [List.map_cons, List.nodup_cons] at hM
    unfold mergeDay
    by_cases h : k0 = d.day
    · rw [if_pos h]
      simpa only [List.map_cons, List.nodup_cons] using hM
    · rw [if_neg h]
      simp only [List.map_cons, List.nodup_cons, mergeDay_keys]
      exact ⟨fun hk => hk.elim h hM.1, ih hM.2⟩

/-- The count stored under a key, zero for an absent key. -/
theorem mergeDay_lookup (d : DailyItem) (M : List (String × DayAcc)) (k : String) :
    (mergeDay d M).lookup k =
      if k = d.day then
        some { count := ((M.lookup k).map (fun a => a.count)).getD 0 + d.count
               sumRating := ((M.lookup k).map (fun a => a.sumRating)).getD 0 + d.sumRating }
      else M.lookup k := by
  induction M with
  | nil =>
    by_cases h : k = d.day
    · simp [mergeDay, List.lookup, h]
    · have h' : (k == d.day) = false := by simpa using h
      simp [mergeDay, List.lookup, h, h']
  | cons p rest ih =>
    obtain ⟨k0, a⟩ := p
    unfold mergeDay
    by_cases h0 : k0 = d.day
    · subst h0
      rw [if_pos rfl]
      by_cases h : k = d.day
      · subst h
        simp [List.lookup]
      · have e : (k == d.day) = false := by simpa using h
        simp [List.lookup, e, h]
    · rw [if_neg h0]
      by_cases h : k = k0
      · subst h
        simp [List.lookup, h0]
      · have e : (k == k0) = false := by simpa using h
        simp only [List.lookup, e, ih]

theorem foldl_mergeDay (items : List DailyItem) (M0 : List (String × DayAcc)) :
    (∀ k, k ∈ (items.foldl (fun m d => mergeDay d m) M0).map (fun e => e.1) ↔
        k ∈ M0.map (fun e => e.1) ∨ k ∈ items.map (fun d => d.day)) ∧
      ((M0.map (fun e => e.1)).Nodup →
        ((items.foldl (fun m d => mergeDay d m) M0).map (fun e => e.1)).Nodup) ∧
      (∀ k, (((items.foldl (fun m d => mergeDay d m) M0).lookup k).map (fun a => a.count)).getD 0 =
        ((M0.lookup k).map (fun a => a.count)).getD 0 +
          (items.map (fun d => if d.day = k then d.count else 0)).sum) ∧
      (∀ k, (((items.foldl (fun m d => mergeDay d m) M0).lookup k).map
          (fun a => a.sumRating)).getD 0 =
        ((M0.lookup k).map (fun a => a.sumRating)).getD 0 +
          (items.map (fun d => if d.day = k then d.sumRating else 0)).sum) := by
  induction items generalizing M0 with
  | nil => simp
  | cons d ds ih =>
    obtain ⟨h1, h2, h3, h4⟩ := ih (mergeDay d M0)
    simp only [List.foldl_cons, List.map_cons, List.sum_cons, List.mem_cons]
    refine ⟨?_, ?_, ?_, ?_⟩
    · intro k
      rw [h1, mergeDay_keys]
      tauto
    · intro hM
      exact h2 (mergeDay_nodup d M0 hM)
    · intro k
      rw [h3, mergeDay_lookup]
      by_cases h : k = d.day
      · subst h
        simp [add_assoc]
      · have h' : ¬ d.day = k := fun e => h e.symm
        simp [h, h']
    · intro k
      rw [h4, mergeDay_lookup]
      by_cases h : k = d.day
      · subst h
        simp [add_assoc]
      · have h' : ¬ d.day = k := fun e => h e.symm
        simp [h, h']

theorem lookup_of_mem_keys {M : List (String × DayAcc)} {k : String}
    (h : k ∈ M.map (fun e => e.1)) : ∃ a, M.lookup k = some a := by
  induction M with
  | nil => simp at h
  | cons p rest ih =>
    obtain ⟨k0, a⟩ := p
    by_cases hk : k = k0
    · subst hk
      exact ⟨a, by simp [List.lookup]⟩
    · have e : (k == k0) = false := by simpa using hk
      simp only [List.map_cons, List.mem_cons] at h
      obtain ⟨a', ha'⟩ := ih (h.resolve_left hk)
      exact ⟨a', by simp only [List.lookup, e, ha']⟩

/-! ## Sums over the groups of a day -/

theorem sum_map_filter {α M : Type} [AddCommMonoid M] (p : α → Prop) [DecidablePred p]
    (f : α → M) (l : List α) :
    ((l.filter (fun x => decide (p x))).map f).sum =
      (l.map (fun x => if p x then f x else 0)).sum := by
  induction l with
  | nil => simp
  | cons x xs ih =>
    by_cases h : p x <;> simp [List.filter_cons, h, ih]

theorem sum_map_flatMap {α β M : Type} [AddCommMonoid M] (g : α → List β) (f : β → M)
    (l : List α) :
    ((l.flatMap g).map f).sum = (l.map (fun a => ((g a).map f).sum)).sum := by
  induction l with
  | nil => simp
  | cons x xs ih => simp [List.flatMap_cons, ih]

/-- A sum over all the items pushed into `daily` is the sum over the day groups. -/
theorem sum_daily_items {M : Type} [AddCommMonoid M] (docs : List DatedRating)
    (F : String → Nat → ℚ → M) :
    (((groupAndSort docs).flatMap (fun a => a.daily)).map
        (fun d => F d.day d.count d.sumRating)).sum =
      ((groupByMealDay docs).map (fun g => F g.day g.count g.sumRating)).sum := by
  rw [sum_map_flatMap]
  unfold groupAndSort
  rw [((sortStage_perm _).map _).sum_eq]
  unfold groupByMeal
  rw [List.map_map]
  have e : ((fun a : MealAgg => (a.daily.map (fun d => F d.day d.count d.sumRating)).sum) ∘
      mealAggOf (groupByMealDay docs)) =
      (fun k => (((groupByMealDay docs).filter (fun x => decide (x.mealId = k))).map
        (fun g => F g.day g.count g.sumRating)).sum) := by
    funext k
    simp only [mealAggOf, List.map_map, Function.comp]
    rfl
  rw [e]
  exact sum_groups (fun g : DayGroup => g.mealId) (fun g => F g.day g.count g.sumRating)
    (groupByMealDay docs) _ (nodup_firstSeen _)
    (fun x hx => mem_firstSeen.2 (List.mem_map_of_mem (fun g : DayGroup => g.mealId) hx))

theorem sum_day_groups {M : Type} [AddCommMonoid M] (docs : List DatedRating) (k : String)
    (f : DatedRating → M) :
    ((firstSeen (docs.map (fun d => (d.doc.mealId, d.day)))).map (fun key =>
        if key.2 = k then
          ((docs.filter (fun d => decide ((d.doc.mealId, d.day) = key))).map f).sum
        else 0)).sum =
      ((docs.filter (fun d => decide (d.day = k))).map f).sum := by
  rw [sum_map_filter (fun d : DatedRating => d.day = k) f docs]
  rw [← sum_groups (fun d : DatedRating => (d.doc.mealId, d.day))
    (fun d => if d.day = k then f d else 0) docs _ (nodup_firstSeen _)
    (fun x hx => mem_firstSeen.2
      (List.mem_map_of_mem (fun d : DatedRating => (d.doc.mealId, d.day)) hx))]
  congr 1
  apply List.map_congr_left
  intro key _
  have hday : ∀ d ∈ docs.filter (fun d => decide ((d.doc.mealId, d.day) = key)),
      d.day = key.2 := by
    intro d hd
    have := (List.mem_filter.1 hd).2
    simp only [decide_eq_true_eq] at this
    rw [← this]
  by_cases h : key.2 = k
  · rw [if_pos h]
    congr 1
    apply List.map_congr_left
    intro d hd
    rw [if_pos ((hday d hd).trans h)]
  · rw [if_neg h]
    symm
    apply List.sum_eq_zero
    intro x hx
    obtain ⟨d, hd, rfl⟩ := List.mem_map.1 hx
    rw [if_neg (fun e => h ((hday d hd).symm.trans e))]

/-- The counts of the groups of a day add up to the number of ratings of the day. -/
theorem day_groups_count (docs : List DatedRating) (k : String) :
    ((groupByMealDay docs).map (fun g => if g.day = k then g.count else 0)).sum =
      (docs.filter (fun d => decide (d.day = k))).length := by
  unfold groupByMealDay
  rw [List.map_map]
  have h := sum_day_groups docs k (fun _ => (1 : Nat))
  simp only [List.map_const', List.sum_replicate, smul_eq_mul, mul_one] at h
  rw [← h]
  rfl

/-- The sums of the groups of a day add up to the sum of the ratings of the day. -/
theorem day_groups_sumRating (docs : List DatedRating) (k : String) :
    ((groupByMealDay docs).map (fun g => if g.day = k then g.sumRating else 0)).sum =
      ((docs.filter (fun d => decide (d.day = k))).map (fun d => d.doc.rating)).sum := by
  unfold groupByMealDay
  rw [List.map_map, ← sum_day_groups docs k (fun d => d.doc.rating)]
  rfl

theorem mem_daily_items {docs : List DatedRating} {k : String} :
    k ∈ ((groupAndSort docs).flatMap (fun a => a.daily)).map (fun d => d.day) ↔
      ∃ d ∈ docs, d.day = k := by
  constructor
  · intro h
    obtain ⟨item, hitem, rfl⟩ := List.mem_map.1 h
    obtain ⟨a, ha, hia⟩ := List.mem_flatMap.1 hitem
    obtain ⟨d0, _, rfl⟩ := mem_groupAndSort ha
    obtain ⟨g, hg, rfl⟩ := List.mem_map.1 hia
    obtain ⟨d, hd, rfl⟩ := mem_groupByMealDay (List.mem_filter.1 hg).1
    exact ⟨d, hd, rfl⟩
  · rintro ⟨d, hd, rfl⟩
    have hg : dayGroupOf docs (d.doc.mealId, d.day) ∈ groupByMealDay docs :=
      List.mem_map.2 ⟨_, mem_firstSeen.2
        (List.mem_map_of_mem (fun d : DatedRating => (d.doc.mealId, d.day)) hd), rfl⟩
    have ha : mealAggOf (groupByMealDay docs) d.doc.mealId ∈ groupAndSort docs := by
      unfold groupAndSort
      apply (sortStage_perm _).mem_iff.2
      exact List.mem_map.2 ⟨_, mem_firstSeen.2
        (List.mem_map_of_mem (fun g : DayGroup => g.mealId) hg), rfl⟩
    apply List.mem_map.2
    refine ⟨{ day := d.day, count := (dayGroupOf docs (d.doc.mealId, d.day)).count
              avgRating := (dayGroupOf docs (d.doc.mealId, d.day)).avgRating
              sumRating := (dayGroupOf docs (d.doc.mealId, d.day)).sumRating }, ?_, rfl⟩
    apply List.mem_flatMap.2
    refine ⟨_, ha, ?_⟩
    exact List.mem_map.2 ⟨_, List.mem_filter.2 ⟨hg, by simp [dayGroupOf]⟩, rfl⟩

/-! ## The daily list -/

theorem dailyList_dates (M : List (String × DayAcc)) :
    (dailyList M).map (fun x => x.date) =
      (M.map (fun e => e.1)).insertionSort (fun a b => a ≤ b) := by
  unfold dailyList
  rw [List.map_map]
  conv_rhs => rw [← List.map_id ((M.map (fun e => e.1)).insertionSort (fun a b => a ≤ b))]
  apply List.map_congr_left
  intro day _
  simp only [Function.comp, id]
  split <;> rfl

theorem mem_dailyList {M : List (String × DayAcc)} {x : DailyRollup} (hx : x ∈ dailyList M) :
    x.date ∈ M.map (fun e => e.1) ∧
      ∃ a, M.lookup x.date = some a ∧ x.count = a.count ∧
        x.avgRating = a.sumRating / (a.count : ℚ) := by
  unfold dailyList at hx
  obtain ⟨day, hday, rfl⟩ := List.mem_map.1 hx
  have hk : day ∈ M.map (fun e => e.1) := (List.perm_insertionSort _ _).mem_iff.1 hday
  obtain ⟨a, ha⟩ := lookup_of_mem_keys hk
  simp only [ha]
  exact ⟨hk, a, rfl, rfl, rfl⟩

theorem dailyList_sorted (M : List (String × DayAcc)) (hM : (M.map (fun e => e.1)).Nodup) :
    ((dailyList M).map (fun x => x.date)).Pairwise (fun a b => a < b) := by
  rw [dailyList_dates]
  have h1 : ((M.map (fun e => e.1)).insertionSort (fun a b => a ≤ b)).Sorted (· ≤ ·) :=
    List.sorted_insertionSort (fun a b : String => a ≤ b) _
  exact h1.lt_of_le ((List.perm_insertionSort _ _).nodup_iff.2 hM)

theorem ratingsOfDay_eq {docs : List DatedRating}
    (hday : ∀ d ∈ docs, dateToString d.doc.createdAt = some d.day) {d0 : DatedRating}
    (hd0 : d0 ∈ docs) :
    (docs.filter (fun d => decide (d.day = d0.day))).map (fun d => d.doc.rating) =
      ratingsOfDay (docs.map (fun d => d.doc)) (dayNumber d0.day) := by
  unfold ratingsOfDay
  rw [List.filter_map, List.map_map]
  congr 1
  apply List.filter_congr
  intro d hd
  have h := dateToString_inj (hday d hd) (hday d0 hd0)
  simp only [Function.comp, dayNumber_day hday hd0, h]

/-- The dates of `daily` are strictly ascending and are the day strings of the
matching ratings, one entry per UTC day; an entry carries the summed counts and
the summed ratings of the groups of its date. -/
theorem buildSummary_daily (c : String) (s e : Int) (rs : List Rating)
    (byMeal : List MealAgg) (ws we : String) (hagg : aggregate c s e rs = some byMeal) :
    ((buildSummary c ws we byMeal).daily.map (fun x => x.date)).Pairwise (fun a b => a < b) ∧
      (∀ str : String, str ∈ (buildSummary c ws we byMeal).daily.map (fun x => x.date) ↔
        ∃ r ∈ rs, Matches c s e r ∧ dateToString r.createdAt = some str) ∧
      (∀ r ∈ rs, Matches c s e r →
        ∃ x ∈ (buildSummary c ws we byMeal).daily, dayNumber x.date = Day r.createdAt ∧
          ∀ y ∈ (buildSummary c ws we byMeal).daily,
            dayNumber y.date = Day r.createdAt → y.date = x.date) ∧
      (∀ x ∈ (buildSummary c ws we byMeal).daily,
        x.count ≠ 0 ∧
        x.count = (((byMeal.flatMap (fun a => a.daily)).filter
          (fun d => decide (d.day = x.date))).map (fun d => d.count)).sum ∧
        x.avgRating = (((byMeal.flatMap (fun a => a.daily)).filter
          (fun d => decide (d.day = x.date))).map (fun d => d.sumRating)).sum / (x.count : ℚ) ∧
        x.count = (ratingsOfDay (matchStage c s e rs) (dayNumber x.date)).length ∧
        x.avgRating = mean (ratingsOfDay (matchStage c s e rs) (dayNumber x.date))) := by
  obtain ⟨docs, hd, rfl⟩ := aggregate_some hagg
  have hday := addDayField_day hd
  have hdoc := addDayField_doc hd
  obtain ⟨f1, f2, f3, f4⟩ :=
    foldl_mergeDay ((groupAndSort docs).flatMap (fun a => a.daily)) []
  have hdaily : (buildSummary c ws we (groupAndSort docs)).daily =
      dailyList (((groupAndSort docs).flatMap (fun a => a.daily)).foldl
        (fun m d => mergeDay d m) []) := by
    show dailyList (summaryLoop (groupAndSort docs)).dailyMap = _
    rw [summaryLoop_dailyMap]
  have hmatched : ∀ r, (r ∈ rs ∧ Matches c s e r) ↔ ∃ d ∈ docs, d.doc = r := by
    intro r
    have : r ∈ matchStage c s e rs ↔ r ∈ rs ∧ Matches c s e r := by
      unfold matchStage
      rw [List.mem_filter]
      simp [Matches]
    rw [← this, ← hdoc, List.mem_map]
  have hkeys : ∀ str : String,
      str ∈ (buildSummary c ws we (groupAndSort docs)).daily.map (fun x => x.date) ↔
        ∃ d ∈ docs, d.day = str := by
    intro str
    rw [hdaily, dailyList_dates, (List.perm_insertionSort _ _).mem_iff, f1, mem_daily_items]
    simp
  refine ⟨?_, ?_, ?_, ?_⟩
  · rw [hdaily]
    exact dailyList_sorted _ (f2 (by simp))
  · intro str
    rw [hkeys]
    constructor
    · rintro ⟨d, hdm, rfl⟩
      obtain ⟨h1, h2⟩ := (hmatched d.doc).2 ⟨d, hdm, rfl⟩
      exact ⟨d.doc, h1, h2, hday d hdm⟩
    · rintro ⟨r, hr, hm, hstr⟩
      obtain ⟨d, hdm, rfl⟩ := (hmatched r).1 ⟨hr, hm⟩
      refine ⟨d, hdm, ?_⟩
      have := hday d hdm
      rw [hstr] at this
      exact (Option.some.inj this).symm
  · intro r hr hm
    obtain ⟨d, hdm, rfl⟩ := (hmatched r).1 ⟨hr, hm⟩
    obtain ⟨x, hx, hxd⟩ := List.mem_map.1 ((hkeys d.day).2 ⟨d, hdm, rfl⟩)
    refine ⟨x, hx, ?_, ?_⟩
    · rw [hxd]; exact dayNumber_day hday hdm
    · intro y hy hyn
      obtain ⟨d', hd', hyd⟩ := (hkeys y.date).1 (List.mem_map_of_mem (fun x => x.date) hy)
      rw [← hyd, dayNumber_day hday hd'] at hyn
      rw [hxd, ← hyd]
      exact (dateToString_inj (hday d' hd') (hday d hdm)).2 hyn
  · intro x hx
    obtain ⟨d0, hd0, hx0⟩ := (hkeys x.date).1 (List.mem_map_of_mem (fun x => x.date) hx)
    rw [hdaily] at hx
    obtain ⟨_, a, ha, hc, hav⟩ := mem_dailyList hx
    have c1 := f3 x.date
    have c2 := f4 x.date
    rw [ha] at c1 c2
    simp only [Option.map_some', Option.getD_some, List.lookup, Option.map_none',
      Option.getD_none, zero_add] at c1 c2
    have e1 : a.count = (docs.filter (fun d => decide (d.day = x.date))).length := by
      rw [c1, sum_daily_items docs (fun day cnt _ => if day = x.date then cnt else 0),
        day_groups_count]
    have e2 : a.sumRating =
        ((docs.filter (fun d => decide (d.day = x.date))).map (fun d => d.doc.rating)).sum := by
      rw [c2, sum_daily_items docs (fun day _ sm => if day = x.date then sm else 0),
        day_groups_sumRating]
    have e3 : (docs.filter (fun d => decide (d.day = x.date))).map (fun d => d.doc.rating) =
        ratingsOfDay (matchStage c s e rs) (dayNumber x.date) := by
      rw [← hx0, ratingsOfDay_eq hday hd0, hdoc]
    have e4 : (docs.filter (fun d => decide (d.day = x.date))).length =
        (ratingsOfDay (matchStage c s e rs) (dayNumber x.date)).length := by
      rw [← e3, List.length_map]
    refine ⟨?_, ?_, ?_, ?_, ?_⟩
    · rw [hc, e1]
      exact Nat.pos_iff_ne_zero.1 (List.length_pos_of_mem
        (List.mem_filter.2 ⟨hd0, by simpa using hx0⟩))
    · rw [hc, c1, sum_map_filter (fun d : DailyItem => d.day = x.date)]
    · rw [hav, c2, hc, sum_map_filter (fun d : DailyItem => d.day = x.date)]
    · rw [hc, e1, e4]
    · rw [hav, e2, e1, e3, e4]
      rfl

/-! ## Further examples -/

theorem aggregate_tieExample :
    aggregate "canteen_01" 1757894400000 1758499200000 tieExample =
      some [{ _id := "Z"
              daily := [{ day := "2025-09-15", count := 1, avgRating := 5, sumRating := 5 }]
              avgRating := 5, count := 1 },
            { _id := "Y"
              daily := [{ day := "2025-09-15", count := 2, avgRating := 4, sumRating := 8 }]
              avgRating := 4, count := 2 },
            { _id := "X"
              daily := [{ day := "2025-09-15", count := 1, avgRating := 4, sumRating := 4 }]
              avgRating := 4, count := 1 }] := by
  simp [tieExample, aggregate, matchStage, addDayField, dateToString_monday1,
    dateToString_monday2, dateToString_monday3, groupAndSort, groupByMealDay, dayGroupOf,
    firstSeen, groupByMeal, mealAggOf, sortStage, mongoAvg, sortBefore]
  norm_num

theorem matchStage_eq_filter (c : String) (s e : Int) (rs : List Rating) :
    matchStage c s e rs = rs.filter (fun r => decide (Matches c s e r)) := by
  unfold matchStage
  apply List.filter_congr
  intro r _
  simp [Matches]

/-! ## The report -/

theorem computeSummary_inv {c : String} {s e : Int} {wsOpt : Option String}
    {rs : List Rating} {rep : WeeklySummary}
    (h : computeSummary c (some s) (some e) wsOpt rs = some rep) :
    ∃ (byMeal : List MealAgg) (ws we : String),
      aggregate c s e rs = some byMeal ∧ rep = buildSummary c ws we byMeal := by
  unfold computeSummary at h
  simp only at h
  split at h
  · rename_i x1 x2 byMeal ws we hagg hwe
    simp only [Option.some.injEq] at h
    exact ⟨byMeal, ws, we, hagg, h.symm⟩
  · simp at h

theorem exists_matching_iff {c : String} {s e : Int} {rs : List Rating} :
    (∃ r ∈ rs, Matches c s e r) ↔
      ∃ r ∈ rs, r.canteenId = c ∧ s ≤ r.createdAt ∧ r.createdAt < e := Iff.rfl

/-- Claim C1: for every canteen, window and list of ratings with at least one
matching rating, the report has a non-zero `totalRatings` and its `avgRating` is
the sum over `topMeals` of `avgRating * count`, divided by `totalRatings`, in
exact rational arithmetic. -/
theorem report_avgRating_weighted (c : String) (s e : Int) (wsOpt : Option String)
    (rs : List Rating) (rep : WeeklySummary)
    (h : computeSummary c (some s) (some e) wsOpt rs = some rep)
    (hmatch : ∃ r ∈ rs, Matches c s e r) :
    rep.totalRatings ≠ 0 ∧
      rep.avgRating =
        (rep.topMeals.map (fun m => m.avgRating * (m.count : ℚ))).sum /
          (rep.totalRatings : ℚ) := by
  obtain ⟨byMeal, ws, we, hagg, rfl⟩ := computeSummary_inv h
  exact buildSummary_avgRating c s e rs byMeal ws we hagg (exists_matching_iff.1 hmatch)

/-- Claim C2: every entry of `topMeals` belongs to a meal with a matching rating;
its `avgRating` is the unweighted mean, over the UTC days on which the meal has
matching ratings, of the mean rating of each day, and its `count` is the sum of
the per-day counts. -/
theorem topMeals_mean_of_daily_means (c : String) (s e : Int) (wsOpt : Option String)
    (rs : List Rating) (rep : WeeklySummary)
    (h : computeSummary c (some s) (some e) wsOpt rs = some rep) :
    ∀ m ∈ rep.topMeals,
      mealDays (rs.filter (fun r => decide (Matches c s e r))) m.mealId ≠ [] ∧
      (∀ d ∈ mealDays (rs.filter (fun r => decide (Matches c s e r))) m.mealId,
        dayRatings (rs.filter (fun r => decide (Matches c s e r))) m.mealId d ≠ []) ∧
      m.avgRating =
        meanOfDailyMeans (rs.filter (fun r => decide (Matches c s e r))) m.mealId ∧
      m.count =
        sumOfDailyCounts (rs.filter (fun r => decide (Matches c s e r))) m.mealId := by
  obtain ⟨byMeal, ws, we, hagg, rfl⟩ := computeSummary_inv h
  rw [← matchStage_eq_filter]
  exact buildSummary_topMeals_mean c s e rs byMeal ws we hagg

/-- Claim C3: `topMeals` is ordered by `avgRating` descending with ties ordered by
`count` descending, position by position; its meal ids are pairwise distinct and
are exactly the meal ids of the matching ratings, so no meal is dropped. -/
theorem topMeals_sorted_complete (c : String) (s e : Int) (wsOpt : Option String)
    (rs : List Rating) (rep : WeeklySummary)
    (h : computeSummary c (some s) (some e) wsOpt rs = some rep) :
    (∀ (i j : Nat) (a b : TopMeal), i < j →
        rep.topMeals[i]? = some a → rep.topMeals[j]? = some b →
        b.avgRating < a.avgRating ∨ (a.avgRating = b.avgRating ∧ b.count ≤ a.count)) ∧
      (rep.topMeals.map (fun m => m.mealId)).Nodup ∧
      (∀ k : String, k ∈ rep.topMeals.map (fun m => m.mealId) ↔
        ∃ r ∈ rs, Matches c s e r ∧ r.mealId = k) := by
  obtain ⟨byMeal, ws, we, hagg, rfl⟩ := computeSummary_inv h
  exact buildSummary_topMeals_sorted c s e rs byMeal ws we hagg

/-- Claim C4: the dates of `daily` are strictly ascending as strings and are
exactly the day strings of the matching ratings, one entry per UTC day; the
`count` of an entry is the sum of the counts of the per-meal groups of its date,
which is the number of matching ratings of that UTC day, and its `avgRating` is
the sum of the `sumRating` of those groups divided by that count, which is the
plain mean of the ratings of that day. -/
theorem daily_rollup (c : String) (s e : Int) (wsOpt : Option String)
    (rs : List Rating) (rep : WeeklySummary)
    (h : computeSummary c (some s) (some e) wsOpt rs = some rep) :
    (rep.daily.map (fun x => x.date)).Pairwise (fun a b => a < b) ∧
      (∀ str : String, str ∈ rep.daily.map (fun x => x.date) ↔
        ∃ r ∈ rs, Matches c s e r ∧ dateToString r.createdAt = some str) ∧
      (∀ r ∈ rs, Matches c s e r →
        ∃ x ∈ rep.daily, dayNumber x.date = Day r.createdAt ∧
          ∀ y ∈ rep.daily, dayNumber y.date = Day r.createdAt → y.date = x.date) ∧
      ∃ byMeal : List MealAgg, aggregate c s e rs = some byMeal ∧
        ∀ x ∈ rep.daily,
          x.count ≠ 0 ∧
          x.count = (((byMeal.flatMap (fun a => a.daily)).filter
            (fun d => decide (d.day = x.date))).map (fun d => d.count)).sum ∧
          x.avgRating = (((byMeal.flatMap (fun a => a.daily)).filter
            (fun d => decide (d.day = x.date))).map (fun d => d.sumRating)).sum /
              (x.count : ℚ) ∧
          x.count = (ratingsOfDay (rs.filter (fun r => decide (Matches c s e r)))
            (dayNumber x.date)).length ∧
          x.avgRating = mean (ratingsOfDay (rs.filter (fun r => decide (Matches c s e r)))
            (dayNumber x.date)) := by
  obtain ⟨byMeal, ws, we, hagg, rfl⟩ := computeSummary_inv h
  obtain ⟨h1, h2, h3, h4⟩ := buildSummary_daily c s e rs byMeal ws we hagg
  rw [matchStage_eq_filter] at h4
  exact ⟨h1, h2, h3, byMeal, hagg, h4⟩

/-! ## The examples of the specification, as reports -/

theorem isoDateOnly_sunday :
    isoDateOnly (minusOneMs (some 1758499200000)) = some "2025-09-21" := by decide

theorem computeSummary_weightedExample :
    computeSummary "canteen_01" (some 1757894400000) (some 1758499200000) (some "2025-09-15")
      weightedExample = some weightedReport := by
  unfold computeSummary
  simp only [aggregate_weightedExample, isoDateOnly_sunday]
  simp [buildSummary, summaryLoop, loopStep, mergeDay, dailyList, List.lookup, reportAvg,
    weightedReport]
  norm_num

theorem computeSummary_twoDayExample :
    computeSummary "canteen_01" (some 1757894400000) (some 1758499200000) (some "2025-09-15")
      twoDayExample = some twoDayReport := by
  have c : ("2025-09-15" : String) ≤ "2025-09-16" := String.le_iff_toList_le.2 (by decide)
  unfold computeSummary
  simp only [aggregate_twoDayExample, isoDateOnly_sunday]
  simp [buildSummary, summaryLoop, loopStep, mergeDay, dailyList, List.lookup, reportAvg,
    twoDayReport, c]
  norm_num

theorem computeSummary_tieExample :
    computeSummary "canteen_01" (some 1757894400000) (some 1758499200000) (some "2025-09-15")
      tieExample = some tieReport := by
  unfold computeSummary
  simp only [aggregate_tieExample, isoDateOnly_sunday]
  simp [buildSummary, summaryLoop, loopStep, mergeDay, dailyList, List.lookup, reportAvg,
    tieReport]
  norm_num

/-- Claim C1 at the example of the specification: with meal A rated 5 and 5 and
meal B rated 1 the report average is 11/3, while the unweighted mean of the two
meal averages is 3. -/
theorem report_avgRating_weighted_witness :
    computeSummary "canteen_01" (some 1757894400000) (some 1758499200000) (some "2025-09-15")
        weightedExample = some weightedReport ∧
      (∃ r ∈ weightedExample, Matches "canteen_01" 1757894400000 1758499200000 r) ∧
      (weightedReport.totalRatings ≠ 0 ∧
        weightedReport.avgRating =
          (weightedReport.topMeals.map (fun m => m.avgRating * (m.count : ℚ))).sum /
            (weightedReport.totalRatings : ℚ)) ∧
      weightedReport.avgRating = 11 / 3 ∧
      mean (weightedReport.topMeals.map (fun m => m.avgRating)) = 3 := by
  have hm : ∃ r ∈ weightedExample, Matches "canteen_01" 1757894400000 1758499200000 r :=
    ⟨{ mealId := "A", canteenId := "canteen_01", rating := 5, createdAt := 1757940900000 },
      by simp [weightedExample], rfl, by decide, by decide⟩
  refine ⟨computeSummary_weightedExample, hm,
    report_avgRating_weighted "canteen_01" 1757894400000 1758499200000 (some "2025-09-15")
      weightedExample weightedReport computeSummary_weightedExample hm, rfl, ?_⟩
  simp [weightedReport, mean]
  norm_num

/-- Claim C2 at the example of the specification: a meal rated 3 and 5 on one day
(mean 4, two ratings) and 2 on the next (mean 2, one rating) has `avgRating` 3 and
`count` 3, while the mean of its three ratings is 10/3. -/
theorem topMeals_mean_of_daily_means_witness :
    computeSummary "canteen_01" (some 1757894400000) (some 1758499200000) (some "2025-09-15")
        twoDayExample = some twoDayReport ∧
      twoDayReport.topMeals = [{ mealId := "A", avgRating := 3, count := 3 }] ∧
      meanOfDailyMeans (twoDayExample.filter
        (fun r => decide (Matches "canteen_01" 1757894400000 1758499200000 r))) "A" = 3 ∧
      sumOfDailyCounts (twoDayExample.filter
        (fun r => decide (Matches "canteen_01" 1757894400000 1758499200000 r))) "A" = 3 ∧
      mean (twoDayExample.map (fun r => r.rating)) = 10 / 3 := by
  have h := topMeals_mean_of_daily_means "canteen_01" 1757894400000 1758499200000
    (some "2025-09-15") twoDayExample twoDayReport computeSummary_twoDayExample
    { mealId := "A", avgRating := 3, count := 3 } (by simp [twoDayReport])
  refine ⟨computeSummary_twoDayExample, rfl, h.2.2.1.symm, h.2.2.2.symm, ?_⟩
  simp [twoDayExample, mean]
  norm_num

/-- Claim C3 on an example with a tie: Z (average 5) comes first, then Y and X, both
with average 4, Y first for its two ratings against one. -/
theorem topMeals_sorted_complete_witness :
    computeSummary "canteen_01" (some 1757894400000) (some 1758499200000) (some "2025-09-15")
        tieExample = some tieReport ∧
      tieReport.topMeals =
        [{ mealId := "Z", avgRating := 5, count := 1 },
         { mealId := "Y", avgRating := 4, count := 2 },
         { mealId := "X", avgRating := 4, count := 1 }] ∧
      (∀ (i j : Nat) (a b : TopMeal), i < j →
        tieReport.topMeals[i]? = some a → tieReport.topMeals[j]? = some b →
        b.avgRating < a.avgRating ∨ (a.avgRating = b.avgRating ∧ b.count ≤ a.count)) ∧
      (tieReport.topMeals.map (fun m => m.mealId)).Nodup ∧
      (∀ k : String, k ∈ tieReport.topMeals.map (fun m => m.mealId) ↔
        ∃ r ∈ tieExample, Matches "canteen_01" 1757894400000 1758499200000 r ∧ r.mealId = k) :=
  ⟨computeSummary_tieExample, rfl,
    topMeals_sorted_complete "canteen_01" 1757894400000 1758499200000 (some "2025-09-15")
      tieExample tieReport computeSummary_tieExample⟩

/-- Claim C4 on the two-day example: Monday with two ratings of mean 4, then
Tuesday with one rating of 2. -/
theorem daily_rollup_witness :
    computeSummary "canteen_01" (some 1757894400000) (some 1758499200000) (some "2025-09-15")
        twoDayExample = some twoDayReport ∧
      twoDayReport.daily =
        [{ date := "2025-09-15", count := 2, avgRating := 4 },
         { date := "2025-09-16", count := 1, avgRating := 2 }] ∧
      (twoDayReport.daily.map (fun x => x.date)).Pairwise (fun a b => a < b) ∧
      (∀ str : String, str ∈ twoDayReport.daily.map (fun x => x.date) ↔
        ∃ r ∈ twoDayExample, Matches "canteen_01" 1757894400000 1758499200000 r ∧
          dateToString r.createdAt = some str) :=
  ⟨computeSummary_twoDayExample, rfl,
    (daily_rollup "canteen_01" 1757894400000 1758499200000 (some "2025-09-15")
      twoDayExample twoDayReport computeSummary_twoDayExample).1,
    (daily_rollup "canteen_01" 1757894400000 1758499200000 (some "2025-09-15")
      twoDayExample twoDayReport computeSummary_twoDayExample).2.1⟩

/-! ## The week start -/

theorem Day_mul (d : Int) : Day (d * msPerDay) = d := by
  unfold Day msPerDay
  omega

theorem TimeWithinDay_mul (d : Int) : TimeWithinDay (d * msPerDay) = 0 := by
  unfold TimeWithinDay msPerDay
  omega

theorem Day_bounds (t : Int) : Day t * msPerDay ≤ t ∧ t < Day t * msPerDay + msPerDay := by
  unfold Day msPerDay
  omega

theorem DayFromYear_99 : DayFromYear 99 = -683368 := by decide

theorem DayFromYear_100 : DayFromYear 100 = -683003 := by decide

theorem DayFromYear_10000 : DayFromYear 10000 = 2932897 := by decide

/-- A time value of the years 100 to 9999 has a day number between the first day
of year 100 and the last day of year 9999. -/
theorem Day_range_of_year {t : Int} (h : 100 ≤ YearFromTime t ∧ YearFromTime t ≤ 9999) :
    -683003 ≤ Day t ∧ Day t < 2932897 := by
  obtain ⟨s1, s2⟩ := yearFromDay_spec (Day t)
  have h1 : DayFromYear 100 ≤ DayFromYear (YearFromTime t) := DayFromYear_le h.1
  have h2 : DayFromYear (YearFromTime t + 1) ≤ DayFromYear 10000 :=
    DayFromYear_le (by omega)
  rw [DayFromYear_100] at h1
  rw [DayFromYear_10000] at h2
  unfold YearFromTime at h1 h2
  omega

theorem year_range_of_Day {t : Int} (h : -683368 ≤ Day t ∧ Day t < 2932897) :
    0 ≤ YearFromTime t ∧ YearFromTime t ≤ 9999 := by
  obtain ⟨s1, s2⟩ := yearFromDay_spec (Day t)
  unfold YearFromTime
  constructor
  · by_contra hc
    have : DayFromYear (yearFromDay (Day t) + 1) ≤ DayFromYear 99 := DayFromYear_le (by omega)
    rw [DayFromYear_99] at this
    omega
  · by_contra hc
    have : DayFromYear 10000 ≤ DayFromYear (yearFromDay (Day t)) := DayFromYear_le (by omega)
    rw [DayFromYear_10000] at this
    omega

/-- The Monday on or before the day of `now`, at midnight UTC. -/
theorem handlerWeekStart_eq {now : Int}
    (h : 100 ≤ YearFromTime now ∧ YearFromTime now ≤ 9999) :
    handlerWeekStart now = some ((Day now - (WeekDay now + 6) % 7) * msPerDay) := by
  have hr := Day_range_of_year h
  unfold handlerWeekStart DateUTC
  simp only
  rw [if_neg (by omega), sub_eq_add_neg, MakeDay_fields]
  unfold TimeClip MakeDate
  rw [if_neg]
  · simp [sub_eq_add_neg]
  · unfold msPerDay WeekDay
    omega

/-- Reading back the date string of a midnight of the years 0 to 9999. -/
theorem parseStart_isoDateOnly (legacy : String → JSDate) (d : Int)
    (h : -683368 ≤ d ∧ d < 2932897) :
    ∃ iso, isoDateOnly (some (d * msPerDay)) = some iso ∧
      parseStart legacy iso = some (d * msPerDay) := by
  have hy : 0 ≤ YearFromTime (d * msPerDay) ∧ YearFromTime (d * msPerDay) ≤ 9999 :=
    year_range_of_Day (by rw [Day_mul]; exact h)
  have hiso := isoDateOnly_eq_dateToString (d * msPerDay) hy
  cases hs : dateToString (d * msPerDay) with
  | none =>
    unfold dateToString at hs
    rw [if_pos hy] at hs
    cases hs
  | some iso =>
    refine ⟨iso, by rw [hiso, hs], ?_⟩
    unfold parseStart
    rw [dateToString_parse hs, Day_mul]
    have hc : TimeClip (MakeDate d 0) = some (d * msPerDay) := by
      unfold TimeClip MakeDate
      rw [if_neg]
      · simp
      · unfold msPerDay
        omega
    simp only [hc]

/-- The script computes the same Monday and reads it back from its date string. -/
theorem getWeekStartISO_eq (legacy : String → JSDate) {now : Int}
    (h : 100 ≤ YearFromTime now ∧ YearFromTime now ≤ 9999) :
    ∃ iso, getWeekStartISO now = some iso ∧
      parseStart legacy iso = some ((Day now - (WeekDay now + 6) % 7) * msPerDay) := by
  have hr := Day_range_of_year h
  have hd : DateUTC (YearFromTime now) (MonthFromTime now) (DateFromTime now) =
      some (Day now * msPerDay) := by
    unfold DateUTC
    simp only
    have := MakeDay_fields now 0
    simp only [add_zero] at this
    rw [if_neg (by omega), this]
    unfold TimeClip MakeDate
    rw [if_neg]
    · simp
    · unfold msPerDay
      omega
  have hw : WeekDay (Day now * msPerDay) = WeekDay now := by
    unfold WeekDay
    rw [Day_mul]
  have ha : addUTCDate (some (Day now * msPerDay)) (-((WeekDay now + 6) % 7)) =
      some ((Day now - (WeekDay now + 6) % 7) * msPerDay) := by
    unfold addUTCDate
    simp only
    rw [MakeDay_fields, Day_mul, TimeWithinDay_mul]
    unfold TimeClip MakeDate
    rw [if_neg]
    · simp [sub_eq_add_neg]
    · unfold msPerDay WeekDay
      omega
  obtain ⟨iso, h1, h2⟩ := parseStart_isoDateOnly legacy (Day now - (WeekDay now + 6) % 7)
    (by unfold WeekDay; omega)
  refine ⟨iso, ?_, h2⟩
  unfold getWeekStartISO
  rw [hd]
  simp only [hw, ha, h1]

/-- The handler outside the two-digit years: when the UTC year of `now` is not
from 0 to 99 and the Monday before `now` is still a date, the week start of the
handler is that Monday at 00:00:00 UTC, with `start ≤ now < start + 7 days`. -/
theorem handler_weekStart_monday (now : Int)
    (hy : YearFromTime now < 0 ∨ 99 < YearFromTime now)
    (hlo : -8640000000000000 ≤ (Day now - (WeekDay now + 6) % 7) * msPerDay)
    (hhi : now ≤ 8640000000000000) :
    ∃ start : Int, handlerWeekStart now = some start ∧
      WeekDay start = 1 ∧ TimeWithinDay start = 0 ∧
      start ≤ now ∧ now < start + 7 * msPerDay := by
  have hb := Day_bounds now
  have hle : (Day now - (WeekDay now + 6) % 7) * msPerDay ≤ now := by
    unfold WeekDay msPerDay at *
    omega
  refine ⟨(Day now - (WeekDay now + 6) % 7) * msPerDay, ?_, ?_, TimeWithinDay_mul _, hle, ?_⟩
  · unfold handlerWeekStart DateUTC
    simp only
    rw [if_neg (by omega), sub_eq_add_neg, MakeDay_fields]
    unfold TimeClip MakeDate
    rw [if_neg]
    · simp [sub_eq_add_neg]
    · rw [add_zero, ← sub_eq_add_neg]
      omega
  · unfold WeekDay
    rw [Day_mul]
    omega
  · unfold WeekDay msPerDay at *
    omega

/-- Where both computations are right: for a reference instant whose UTC year is
from 100 to 9999, the handler and the script compute the same week start, a
Monday at 00:00:00 UTC, with `start ≤ now < start + 7 days`. -/
theorem weekStart_monday (legacy : String → JSDate) (now : Int)
    (h : 100 ≤ YearFromTime now ∧ YearFromTime now ≤ 9999) :
    ∃ (start : Int) (iso : String),
      handlerWeekStart now = some start ∧
      getWeekStartISO now = some iso ∧ parseStart legacy iso = some start ∧
      WeekDay start = 1 ∧ TimeWithinDay start = 0 ∧
      start ≤ now ∧ now < start + 7 * msPerDay := by
  obtain ⟨iso, h1, h2⟩ := getWeekStartISO_eq legacy h
  refine ⟨(Day now - (WeekDay now + 6) % 7) * msPerDay, iso, handlerWeekStart_eq h, h1, h2,
    ?_, TimeWithinDay_mul _, ?_, ?_⟩
  · unfold WeekDay
    rw [Day_mul]
    omega
  · have := Day_bounds now
    unfold WeekDay msPerDay at *
    omega
  · have := Day_bounds now
    unfold WeekDay msPerDay at *
    omega

/-- On Thursday 2025-09-18 at 12:55 UTC the week starts on Monday 2025-09-15 at
midnight, in the handler and in the script. -/
theorem weekStart_monday_witness :
    (100 ≤ YearFromTime 1758200100000 ∧ YearFromTime 1758200100000 ≤ 9999) ∧
      handlerWeekStart 1758200100000 = some 1757894400000 ∧
      getWeekStartISO 1758200100000 = some "2025-09-15" ∧
      ∃ (start : Int) (iso : String),
        handlerWeekStart 1758200100000 = some start ∧
        getWeekStartISO 1758200100000 = some iso ∧
        parseStart (fun _ => none) iso = some start ∧
        WeekDay start = 1 ∧ TimeWithinDay start = 0 ∧
        start ≤ 1758200100000 ∧ 1758200100000 < start + 7 * msPerDay :=
  ⟨by decide, by decide, by decide,
    weekStart_monday (fun _ => none) 1758200100000 (by decide)⟩

/-- Claim C5 on two reference instants where the code departs from it.  At
0050-01-01T00:00:00Z, a Saturday, `Date.UTC` reads the year 50 as 1950: the
handler starts the week on 1949-12-27, a Tuesday, and the script on 1949-12-26;
both starts are after the reference instant.  At 10000-01-07T22:40:00Z, a
Friday, the script keeps the ten characters `+010000-01` of
`+010000-01-03T00:00:00.000Z`, which read back as 10000-01-01, a Saturday, while
the handler starts the week on Monday 10000-01-03. -/
theorem weekStart_wrong_at_edge_years :
    (YearFromTime (-60589296000000) = 50 ∧ WeekDay (-60589296000000) = 6 ∧
      handlerWeekStart (-60589296000000) = some (-631584000000) ∧
      isoDateOnly (some (-631584000000)) = some "1949-12-27" ∧
      WeekDay (-631584000000) = 2 ∧
      ¬ ((-631584000000 : Int) ≤ -60589296000000) ∧
      getWeekStartISO (-60589296000000) = some "1949-12-26" ∧
      (∀ legacy : String → JSDate, parseStart legacy "1949-12-26" = some (-631670400000)) ∧
      ¬ ((-631670400000 : Int) ≤ -60589296000000)) ∧
    (YearFromTime 253402900800000 = 10000 ∧ WeekDay 253402900800000 = 5 ∧
      getWeekStartISO 253402900800000 = some "+010000-01" ∧
      (∀ legacy : String → JSDate,
        parseStart legacy "+010000-01" = some 253402300800000) ∧
      WeekDay 253402300800000 = 6 ∧
      handlerWeekStart 253402900800000 = some 253402473600000 ∧
      WeekDay 253402473600000 = 1 ∧
      (253402473600000 : Int) ≤ 253402900800000 ∧
      (253402900800000 : Int) < 253402473600000 + 7 * msPerDay) := by
  refine ⟨⟨by decide, by decide, by decide, by decide, by decide, by decide, by decide,
    fun _ => rfl, by decide⟩,
    ⟨by decide, by decide, by decide, fun _ => rfl, by decide, by decide, by decide,
      by decide, by decide⟩⟩

/-! ## The window of a request -/

theorem addUTCDate_seven {s e : Int} (h : addUTCDate (some s) 7 = some e) :
    e = s + 7 * msPerDay := by
  unfold addUTCDate at h
  simp only [MakeDay_fields] at h
  unfold TimeClip at h
  split_ifs at h
  simp only [Option.some.injEq] at h
  rw [← h]
  unfold MakeDate Day TimeWithinDay msPerDay
  omega

theorem addUTCDate_none (k : Int) : addUTCDate none k = none := rfl

theorem aggregate_congr {c : String} {s e : Int} {rs rs' : List Rating}
    (h : rs'.filter (fun r => decide (Matches c s e r)) =
      rs.filter (fun r => decide (Matches c s e r))) :
    aggregate c s e rs' = aggregate c s e rs := by
  unfold aggregate
  rw [matchStage_eq_filter, matchStage_eq_filter, h]

theorem computeSummary_congr {c : String} {s e : Int} {rs rs' : List Rating}
    (wsOpt : Option String)
    (h : rs'.filter (fun r => decide (Matches c s e r)) =
      rs.filter (fun r => decide (Matches c s e r))) :
    computeSummary c (some s) (some e) wsOpt rs' = computeSummary c (some s) (some e) wsOpt rs := by
  unfold computeSummary
  simp only [aggregate_congr h]

/-- When the shared code returns a summary, both bounds are valid dates, the end is
seven days after the start, and the summary is built from the aggregate. -/
theorem computeSummary_some {c : String} {start : JSDate} {wsOpt : Option String}
    {rs : List Rating} {rep : WeeklySummary}
    (h : computeSummary c start (addUTCDate start 7) wsOpt rs = some rep) :
    ∃ (s : Int) (byMeal : List MealAgg) (ws we : String),
      start = some s ∧ addUTCDate start 7 = some (s + 7 * msPerDay) ∧
      aggregate c s (s + 7 * msPerDay) rs = some byMeal ∧
      rep = buildSummary c ws we byMeal ∧ wsOpt = some ws := by
  cases start with
  | none => simp [computeSummary, addUTCDate_none] at h
  | some s =>
    cases hstop : addUTCDate (some s) 7 with
    | none => rw [hstop] at h; simp [computeSummary] at h
    | some e =>
      have he := addUTCDate_seven hstop
      subst he
      rw [hstop] at h
      unfold computeSummary at h
      simp only at h
      split at h
      · rename_i x1 x2 byMeal ws we hagg hwe
        simp only [Option.some.injEq] at h
        exact ⟨s, byMeal, ws, we, rfl, rfl, hagg, h.symm, rfl⟩
      · simp at h

theorem totalRatings_eq_matching {c : String} {s e : Int} {rs : List Rating}
    {byMeal : List MealAgg} (ws we : String) (hagg : aggregate c s e rs = some byMeal) :
    (buildSummary c ws we byMeal).totalRatings =
      (rs.filter (fun r => decide (Matches c s e r))).length := by
  show (summaryLoop byMeal).totalRatings = _
  rw [summaryLoop_totalRatings, aggregate_count_sum hagg, matchStage_eq_filter]

theorem handler_json {legacy : String → JSDate} {now : Int} {ratings : List Rating}
    {c : String} {w : Option String} {ev : List StoreEvent} {rep : WeeklySummary}
    (h : weeklyReportHandler legacy now ratings (some c) w = (ev, HandlerResult.json rep)) :
    c ≠ "" ∧
      ev = [StoreEvent.aggregate c (handlerStart legacy now w)
        (addUTCDate (handlerStart legacy now w) 7)] ∧
      computeSummary c (handlerStart legacy now w) (addUTCDate (handlerStart legacy now w) 7)
        (isoDateOnly (handlerStart legacy now w)) ratings = some rep := by
  unfold weeklyReportHandler at h
  simp only at h
  split_ifs at h with hc
  · simp at h
  · simp only [Prod.mk.injEq] at h
    obtain ⟨h1, h2⟩ := h
    refine ⟨hc, h1.symm, ?_⟩
    split at h2
    · rename_i summary hs
      simp only [HandlerResult.json.injEq] at h2
      rw [hs, h2]
    · simp at h2

theorem handler_of_summary (legacy : String → JSDate) (now : Int) (ratings : List Rating)
    {c : String} (w : Option String) (rep : WeeklySummary) (hc : c ≠ "")
    (h : computeSummary c (handlerStart legacy now w) (addUTCDate (handlerStart legacy now w) 7)
        (isoDateOnly (handlerStart legacy now w)) ratings = some rep) :
    weeklyReportHandler legacy now ratings (some c) w =
      ([StoreEvent.aggregate c (handlerStart legacy now w)
        (addUTCDate (handlerStart legacy now w) 7)], HandlerResult.json rep) := by
  unfold weeklyReportHandler
  simp only [if_neg hc, h]

theorem script_saved {legacy : String → JSDate} {now stamp : Int} {newId : Nat}
    {ratings : List Rating} {reports reports' : List ReportDoc} {c : String}
    {w : Option String} {ev : List StoreEvent}
    (h : recomputeMain legacy now stamp newId ratings reports (some c) w =
      (ev, ScriptOutcome.saved, reports')) :
    c ≠ "" ∧ ∃ (iso : String) (rep : WeeklySummary),
      scriptStartISO now w = some iso ∧
      computeSummary c (parseStart legacy iso) (addUTCDate (parseStart legacy iso) 7)
        (some iso) ratings = some rep ∧
      ev = [StoreEvent.connect,
        StoreEvent.aggregate c (parseStart legacy iso) (addUTCDate (parseStart legacy iso) 7),
        StoreEvent.updateOne c iso, StoreEvent.close] ∧
      reports' = materialize rep stamp newId reports := by
  unfold recomputeMain at h
  simp only at h
  split_ifs at h with hc
  · simp at h
  · refine ⟨hc, ?_⟩
    split at h
    · simp at h
    · rename_i iso hiso
      split at h
      · simp at h
      · rename_i summary hs
        simp only [Prod.mk.injEq, true_and] at h
        exact ⟨iso, summary, hiso, hs, h.1.symm, h.2.symm⟩

theorem script_of_summary (legacy : String → JSDate) (now stamp : Int) (newId : Nat)
    (ratings : List Rating) (reports : List ReportDoc) {c : String}
    (w : Option String) {iso : String} (rep : WeeklySummary) (hc : c ≠ "")
    (hiso : scriptStartISO now w = some iso)
    (h : computeSummary c (parseStart legacy iso) (addUTCDate (parseStart legacy iso) 7)
        (some iso) ratings = some rep) :
    recomputeMain legacy now stamp newId ratings reports (some c) w =
      ([StoreEvent.connect,
        StoreEvent.aggregate c (parseStart legacy iso) (addUTCDate (parseStart legacy iso) 7),
        StoreEvent.updateOne c iso, StoreEvent.close],
        ScriptOutcome.saved, materialize rep stamp newId reports) := by
  unfold recomputeMain
  simp only [if_neg hc, hiso, h]

/-- Claim C6: when the handler answers with a report, or the script saves one, the
window is `[start, start + 7 days)` for the start of the request; `totalRatings`
is the number of ratings of the canteen created in the window; a rating created
exactly at the start is in the window and one created exactly at the end is not;
and any other content of the `ratings` collection with the same ratings in the
window gives the same accesses and the same report. -/
theorem window_half_open (legacy : String → JSDate) (now stamp : Int) (newId : Nat)
    (ratings : List Rating) (reports : List ReportDoc) (c : String) (w : Option String) :
    (∀ (ev : List StoreEvent) (rep : WeeklySummary),
      weeklyReportHandler legacy now ratings (some c) w = (ev, HandlerResult.json rep) →
      ∃ start : Int, handlerStart legacy now w = some start ∧
        ev = [StoreEvent.aggregate c (some start) (some (start + 7 * msPerDay))] ∧
        rep.totalRatings = (ratings.filter
          (fun r => decide (Matches c start (start + 7 * msPerDay) r))).length ∧
        ∀ ratings' : List Rating,
          ratings'.filter (fun r => decide (Matches c start (start + 7 * msPerDay) r)) =
            ratings.filter (fun r => decide (Matches c start (start + 7 * msPerDay) r)) →
          weeklyReportHandler legacy now ratings' (some c) w = (ev, HandlerResult.json rep)) ∧
    (∀ (ev : List StoreEvent) (reports' : List ReportDoc),
      recomputeMain legacy now stamp newId ratings reports (some c) w =
        (ev, ScriptOutcome.saved, reports') →
      ∃ (start : Int) (iso : String) (rep : WeeklySummary),
        scriptStartISO now w = some iso ∧ parseStart legacy iso = some start ∧
        ev = [StoreEvent.connect,
          StoreEvent.aggregate c (some start) (some (start + 7 * msPerDay)),
          StoreEvent.updateOne c iso, StoreEvent.close] ∧
        reports' = materialize rep stamp newId reports ∧
        rep.totalRatings = (ratings.filter
          (fun r => decide (Matches c start (start + 7 * msPerDay) r))).length ∧
        ∀ ratings' : List Rating,
          ratings'.filter (fun r => decide (Matches c start (start + 7 * msPerDay) r)) =
            ratings.filter (fun r => decide (Matches c start (start + 7 * msPerDay) r)) →
          recomputeMain legacy now stamp newId ratings' reports (some c) w =
            (ev, ScriptOutcome.saved, reports')) ∧
    (∀ (start : Int) (r : Rating), r.canteenId = c →
      (r.createdAt = start → Matches c start (start + 7 * msPerDay) r) ∧
      (r.createdAt = start + 7 * msPerDay → ¬ Matches c start (start + 7 * msPerDay) r)) := by
  refine ⟨?_, ?_, ?_⟩
  · intro ev rep h
    obtain ⟨hc, hev, hs⟩ := handler_json h
    obtain ⟨s, byMeal, ws, we, h1, h2, hagg, hrep, _⟩ := computeSummary_some hs
    refine ⟨s, h1, ?_, ?_, ?_⟩
    · rw [hev, h2, h1]
    · rw [hrep]; exact totalRatings_eq_matching ws we hagg
    · intro ratings' hfil
      rw [hev]
      apply handler_of_summary legacy now ratings' w rep hc
      rw [← hs, h2, h1]
      exact computeSummary_congr _ hfil
  · intro ev reports' h
    obtain ⟨hc, iso, rep, hiso, hs, hev, hrep'⟩ := script_saved h
    obtain ⟨s, byMeal, ws, we, h1, h2, hagg, hrep, _⟩ := computeSummary_some hs
    refine ⟨s, iso, rep, hiso, h1, ?_, hrep', ?_, ?_⟩
    · rw [hev, h2, h1]
    · rw [hrep]; exact totalRatings_eq_matching ws we hagg
    · intro ratings' hfil
      rw [hev, hrep']
      apply script_of_summary legacy now stamp newId ratings' reports w rep hc hiso
      rw [← hs, h2, h1]
      exact computeSummary_congr _ hfil
  · intro start r hr
    unfold Matches msPerDay
    constructor
    · intro h; exact ⟨hr, by omega, by omega⟩
    · intro h hm; omega

/-! ## A request on the boundary example -/

theorem parseStart_monday :
    parseStart (fun _ => none) "2025-09-15" = some 1757894400000 := by decide

theorem addUTCDate_monday : addUTCDate (some 1757894400000) 7 = some 1758499200000 := by
  decide

theorem isoDateOnly_monday : isoDateOnly (some 1757894400000) = some "2025-09-15" := by decide

theorem dateToString_midnight : dateToString 1757894400000 = some "2025-09-15" := by decide

theorem aggregate_boundaryExample :
    aggregate "canteen_01" 1757894400000 1758499200000 boundaryExample =
      some [{ _id := "B"
              daily := [{ day := "2025-09-15", count := 1, avgRating := 5, sumRating := 5 }]
              avgRating := 5, count := 1 },
            { _id := "A"
              daily := [{ day := "2025-09-15", count := 1, avgRating := 4, sumRating := 4 }]
              avgRating := 4, count := 1 }] := by
  simp [boundaryExample, aggregate, matchStage, addDayField, dateToString_monday1,
    dateToString_midnight, groupAndSort, groupByMealDay, dayGroupOf,
    firstSeen, groupByMeal, mealAggOf, sortStage, mongoAvg, sortBefore]
  norm_num

theorem computeSummary_boundaryExample :
    computeSummary "canteen_01" (some 1757894400000) (some 1758499200000) (some "2025-09-15")
      boundaryExample = some boundaryReport := by
  unfold computeSummary
  simp only [aggregate_boundaryExample, isoDateOnly_sunday]
  simp [buildSummary, summaryLoop, loopStep, mergeDay, dailyList, List.lookup, reportAvg,
    boundaryReport]
  norm_num

theorem handler_boundaryExample :
    weeklyReportHandler (fun _ => none) 0 boundaryExample (some "canteen_01")
        (some "2025-09-15") =
      ([StoreEvent.aggregate "canteen_01" (some 1757894400000) (some 1758499200000)],
        HandlerResult.json boundaryReport) := by
  have hs : handlerStart (fun _ => none) 0 (some "2025-09-15") = some 1757894400000 := by
    show (if ("2025-09-15" : String) = "" then handlerWeekStart 0
      else parseStart (fun _ => none) "2025-09-15") = some 1757894400000
    rw [if_neg (by decide)]
    exact parseStart_monday
  unfold weeklyReportHandler
  simp only [hs, addUTCDate_monday, isoDateOnly_monday, computeSummary_boundaryExample]
  rw [if_neg (by decide)]

theorem script_boundaryExample :
    recomputeMain (fun _ => none) 0 1758200100000 1 boundaryExample [] (some "canteen_01")
        (some "2025-09-15") =
      ([StoreEvent.connect,
        StoreEvent.aggregate "canteen_01" (some 1757894400000) (some 1758499200000),
        StoreEvent.updateOne "canteen_01" "2025-09-15", StoreEvent.close],
        ScriptOutcome.saved,
        [{ _id := 1, report := boundaryReport, lastUpdated := 1758200100000 }]) := by
  have hs : scriptStartISO 0 (some "2025-09-15") = some "2025-09-15" := by
    show (if ("2025-09-15" : String) = "" then getWeekStartISO 0
      else some "2025-09-15") = some "2025-09-15"
    rw [if_neg (by decide)]
  unfold recomputeMain
  simp only [hs, parseStart_monday, addUTCDate_monday, computeSummary_boundaryExample]
  rw [if_neg (by decide)]
  rfl

/-- Claim C6 on the boundary example: of the four ratings, the one created exactly
at the window start and the one inside the window are counted; the one created
exactly at the window end and the one of another canteen are not. -/
theorem window_half_open_witness :
    weeklyReportHandler (fun _ => none) 0 boundaryExample (some "canteen_01")
        (some "2025-09-15") =
      ([StoreEvent.aggregate "canteen_01" (some 1757894400000) (some 1758499200000)],
        HandlerResult.json boundaryReport) ∧
    recomputeMain (fun _ => none) 0 1758200100000 1 boundaryExample [] (some "canteen_01")
        (some "2025-09-15") =
      ([StoreEvent.connect,
        StoreEvent.aggregate "canteen_01" (some 1757894400000) (some 1758499200000),
        StoreEvent.updateOne "canteen_01" "2025-09-15", StoreEvent.close],
        ScriptOutcome.saved,
        [{ _id := 1, report := boundaryReport, lastUpdated := 1758200100000 }]) ∧
    (∃ start : Int, handlerStart (fun _ => none) 0 (some "2025-09-15") = some start ∧
      boundaryReport.totalRatings = (boundaryExample.filter
        (fun r => decide (Matches "canteen_01" start (start + 7 * msPerDay) r))).length) ∧
    (∃ start : Int, parseStart (fun _ => none) "2025-09-15" = some start ∧
      boundaryReport.totalRatings = (boundaryExample.filter
        (fun r => decide (Matches "canteen_01" start (start + 7 * msPerDay) r))).length) ∧
    Matches "canteen_01" 1757894400000 (1757894400000 + 7 * msPerDay)
      { mealId := "A", canteenId := "canteen_01", rating := 4, createdAt := 1757894400000 } ∧
    ¬ Matches "canteen_01" 1757894400000 (1757894400000 + 7 * msPerDay)
      { mealId := "A", canteenId := "canteen_01", rating := 2,
        createdAt := 1757894400000 + 7 * msPerDay } := by
  have h := window_half_open (fun _ => none) 0 1758200100000 1 boundaryExample []
    "canteen_01" (some "2025-09-15")
  obtain ⟨s1, a1, _, a3, _⟩ := h.1 _ _ handler_boundaryExample
  obtain ⟨s2, iso, rep, b1, b2, _, b4, b5, _⟩ := h.2.1 _ _ script_boundaryExample
  have hiso : iso = "2025-09-15" := by
    have : scriptStartISO 0 (some "2025-09-15") = some "2025-09-15" := by
      show (if ("2025-09-15" : String) = "" then getWeekStartISO 0
        else some "2025-09-15") = some "2025-09-15"
      rw [if_neg (by decide)]
    rw [this] at b1
    exact (Option.some.inj b1).symm
  subst hiso
  have hrep : rep = boundaryReport := by
    have : materialize rep 1758200100000 1 [] =
        [{ _id := 1, report := rep, lastUpdated := 1758200100000 }] := rfl
    rw [this] at b4
    have := List.cons.inj b4
    exact (congrArg ReportDoc.report this.1).symm
  subst hrep
  exact ⟨handler_boundaryExample, script_boundaryExample, ⟨s1, a1, a3⟩, ⟨s2, b2, b5⟩,
    (h.2.2 1757894400000 _ rfl).1 rfl, (h.2.2 1757894400000 _ rfl).2 rfl⟩

/-! ## Requests without ratings, without a canteen, or with an invalid week start -/

theorem TimeClip_some {t t' : Int} (h : TimeClip t = some t') :
    t' = t ∧ -8640000000000000 ≤ t ∧ t ≤ 8640000000000000 := by
  unfold TimeClip at h
  split_ifs at h with hc
  simp only [Option.some.injEq] at h
  exact ⟨h.symm, by omega, by omega⟩

theorem TimeClip_of_range {t : Int} (h1 : -8640000000000000 ≤ t) (h2 : t ≤ 8640000000000000) :
    TimeClip t = some t := by
  unfold TimeClip
  rw [if_neg (by omega)]

theorem parseStart_range {legacy : String → JSDate} {w : String} {start : Int}
    (h : parseStart legacy w = some start) :
    -8640000000000000 ≤ start ∧ start ≤ 8640000000000000 := by
  have hleg : ∀ {x : JSDate}, x.bind TimeClip = some start →
      -8640000000000000 ≤ start ∧ start ≤ 8640000000000000 := by
    intro x hx
    cases x with
    | none => simp at hx
    | some t =>
      obtain ⟨e, h1, h2⟩ := TimeClip_some (show TimeClip t = some start from hx)
      subst e
      exact ⟨h1, h2⟩
  unfold parseStart at h
  split at h
  · split at h
    · rename_i d hd t ht
      obtain ⟨e, h1, h2⟩ := TimeClip_some ht
      simp only [Option.some.injEq] at h
      subst h
      subst e
      exact ⟨h1, h2⟩
    · exact hleg h
  · exact hleg h

theorem handlerStart_range {legacy : String → JSDate} {now : Int} {w : Option String}
    {start : Int} (h : handlerStart legacy now w = some start) :
    -8640000000000000 ≤ start ∧ start ≤ 8640000000000000 := by
  have hmon : handlerWeekStart now = some start →
      -8640000000000000 ≤ start ∧ start ≤ 8640000000000000 := by
    intro hm
    unfold handlerWeekStart DateUTC at hm
    obtain ⟨e, h1, h2⟩ := TimeClip_some hm
    rw [e]
    exact ⟨h1, h2⟩
  unfold handlerStart at h
  split at h
  · exact hmon h
  · split_ifs at h
    · exact hmon h
    · exact parseStart_range h

theorem addUTCDate_seven_of_range {s : Int} (h1 : -8640000000000000 ≤ s)
    (h2 : s + 7 * msPerDay ≤ 8640000000000000) :
    addUTCDate (some s) 7 = some (s + 7 * msPerDay) := by
  have e : MakeDate (Day s + 7) (TimeWithinDay s) = s + 7 * msPerDay := by
    unfold MakeDate Day TimeWithinDay msPerDay
    omega
  unfold addUTCDate
  simp only [MakeDay_fields, e]
  apply TimeClip_of_range
  · unfold msPerDay at *; omega
  · exact h2

theorem aggregate_of_no_match {c : String} {s e : Int} {rs : List Rating}
    (h : ∀ r ∈ rs, ¬ Matches c s e r) : aggregate c s e rs = some [] := by
  have hm : matchStage c s e rs = [] := by
    rw [matchStage_eq_filter]
    apply List.filter_eq_nil_iff.2
    intro r hr
    simpa using h r hr
  unfold aggregate
  rw [hm]
  rfl

theorem buildSummary_nil (c ws we : String) :
    buildSummary c ws we [] =
      { canteenId := c, weekStart := ws, weekEnd := we, totalRatings := 0, avgRating := 0,
        topMeals := [], daily := [] } := by
  simp [buildSummary, summaryLoop, reportAvg, dailyList]

theorem computeSummary_of_no_match {c : String} {s : Int} {rs : List Rating} (ws : String)
    (h1 : -8640000000000000 ≤ s) (h2 : s + 7 * msPerDay ≤ 8640000000000000)
    (h : ∀ r ∈ rs, ¬ Matches c s (s + 7 * msPerDay) r) :
    ∃ we, computeSummary c (some s) (some (s + 7 * msPerDay)) (some ws) rs =
      some { canteenId := c, weekStart := ws, weekEnd := we, totalRatings := 0, avgRating := 0,
             topMeals := [], daily := [] } := by
  have hm : minusOneMs (some (s + 7 * msPerDay)) = some (s + 7 * msPerDay - 1) := by
    unfold minusOneMs
    simp only
    apply TimeClip_of_range
    · unfold msPerDay; omega
    · omega
  refine ⟨String.mk ((isoChars (s + 7 * msPerDay - 1)).take 10), ?_⟩
  unfold computeSummary
  simp only [aggregate_of_no_match h, hm, isoDateOnly, buildSummary_nil]

/-- Claim C7: when no rating matches the canteen and the window, the aggregation
returns no meal and the report has `totalRatings = 0`, `avgRating = 0`,
`topMeals = []` and `daily = []`; the zero average is the explicit branch of the
conditional, taken without a division; the handler sends this report and the
script saves it, for every request whose window lies in the range of dates. -/
theorem empty_report (legacy : String → JSDate) (now stamp : Int) (newId : Nat)
    (ratings : List Rating) (reports : List ReportDoc) (c : String) (w : Option String)
    (start : Int) (hno : ∀ r ∈ ratings, ¬ Matches c start (start + 7 * msPerDay) r) :
    aggregate c start (start + 7 * msPerDay) ratings = some [] ∧
    (∀ ws we : String, buildSummary c ws we [] =
      { canteenId := c, weekStart := ws, weekEnd := we, totalRatings := 0, avgRating := 0,
        topMeals := [], daily := [] }) ∧
    (∀ topMeals : List TopMeal, reportAvg topMeals 0 = 0) ∧
    (c ≠ "" → handlerStart legacy now w = some start →
      start + 7 * msPerDay ≤ 8640000000000000 →
      ∃ ws we : String, weeklyReportHandler legacy now ratings (some c) w =
        ([StoreEvent.aggregate c (some start) (some (start + 7 * msPerDay))],
          HandlerResult.json
            { canteenId := c, weekStart := ws, weekEnd := we, totalRatings := 0, avgRating := 0,
              topMeals := [], daily := [] })) ∧
    (c ≠ "" → ∀ iso : String, scriptStartISO now w = some iso →
      parseStart legacy iso = some start → start + 7 * msPerDay ≤ 8640000000000000 →
      ∃ we : String, recomputeMain legacy now stamp newId ratings reports (some c) w =
        ([StoreEvent.connect,
          StoreEvent.aggregate c (some start) (some (start + 7 * msPerDay)),
          StoreEvent.updateOne c iso, StoreEvent.close],
          ScriptOutcome.saved,
          materialize
            { canteenId := c, weekStart := iso, weekEnd := we, totalRatings := 0, avgRating := 0,
              topMeals := [], daily := [] } stamp newId reports)) := by
  refine ⟨aggregate_of_no_match hno, buildSummary_nil c, fun _ => rfl, ?_, ?_⟩
  · intro hc hs hmax
    have hr := handlerStart_range hs
    have hstop := addUTCDate_seven_of_range hr.1 hmax
    obtain ⟨we, hwe⟩ := computeSummary_of_no_match
      (String.mk ((isoChars start).take 10)) hr.1 hmax hno
    refine ⟨String.mk ((isoChars start).take 10), we, ?_⟩
    have h := handler_of_summary legacy now ratings w
      { canteenId := c, weekStart := String.mk ((isoChars start).take 10), weekEnd := we
        totalRatings := 0, avgRating := 0, topMeals := [], daily := [] } hc
    rw [hs, hstop] at h
    exact h hwe
  · intro hc iso hiso hs hmax
    have hr := parseStart_range hs
    have hstop := addUTCDate_seven_of_range hr.1 hmax
    obtain ⟨we, hwe⟩ := computeSummary_of_no_match iso hr.1 hmax hno
    refine ⟨we, ?_⟩
    have h := script_of_summary legacy now stamp newId ratings reports w
      { canteenId := c, weekStart := iso, weekEnd := we, totalRatings := 0
        avgRating := 0, topMeals := [], daily := [] } hc hiso
    rw [hs, hstop] at h
    exact h hwe

/-- Claim C9: with `canteenId` missing or empty the handler answers 400
`canteenId required` and the script prints its usage and exits; neither makes
any access to the database, and `weekly_reports` is unchanged. -/
theorem missing_canteenId_rejected (legacy : String → JSDate) (now stamp : Int) (newId : Nat)
    (ratings : List Rating) (reports : List ReportDoc) (w : Option String) :
    weeklyReportHandler legacy now ratings none w =
        ([], HandlerResult.badRequest "canteenId required") ∧
      weeklyReportHandler legacy now ratings (some "") w =
        ([], HandlerResult.badRequest "canteenId required") ∧
      recomputeMain legacy now stamp newId ratings reports none w =
        ([], ScriptOutcome.usage, reports) ∧
      recomputeMain legacy now stamp newId ratings reports (some "") w =
        ([], ScriptOutcome.usage, reports) := by
  refine ⟨rfl, ?_, rfl, ?_⟩
  · unfold weeklyReportHandler
    simp
  · unfold recomputeMain
    simp

/-- Claim C10, as amended: with a `canteenId` and a `weekStart` whose parsed start
is an Invalid Date, the aggregate over `ratings` is still issued, with the invalid
bounds; only then does the computation fail, the handler by an exception and
the script by a logged error, and `weekly_reports` is neither written nor
changed. -/
theorem invalid_weekStart_fails_after_read (legacy : String → JSDate) (now stamp : Int)
    (newId : Nat) (ratings : List Rating) (reports : List ReportDoc) (c w : String)
    (hc : c ≠ "") (hw : w ≠ "") (hinv : parseStart legacy w = none) :
    weeklyReportHandler legacy now ratings (some c) (some w) =
        ([StoreEvent.aggregate c none none], HandlerResult.thrown) ∧
      recomputeMain legacy now stamp newId ratings reports (some c) (some w) =
        ([StoreEvent.connect, StoreEvent.aggregate c none none, StoreEvent.close],
          ScriptOutcome.failed, reports) := by
  constructor
  · have hs : handlerStart legacy now (some w) = none := by
      show (if w = "" then handlerWeekStart now else parseStart legacy w) = none
      rw [if_neg hw, hinv]
    unfold weeklyReportHandler
    simp only [if_neg hc, hs, addUTCDate_none, computeSummary]
  · have hs : scriptStartISO now (some w) = some w := by
      show (if w = "" then getWeekStartISO now else some w) = some w
      rw [if_neg hw]
    unfold recomputeMain
    simp only [if_neg hc, hs, hinv, addUTCDate_none, computeSummary]

theorem parseStart_garbage : parseStart (fun _ => none) "garbage" = none := by decide

/-- Claim C10, as amended, on the week start `garbage`: the one access is the
aggregate, with both bounds invalid. -/
theorem invalid_weekStart_fails_after_read_witness :
    ("canteen_01" : String) ≠ "" ∧ ("garbage" : String) ≠ "" ∧
      parseStart (fun _ => none) "garbage" = none ∧
      weeklyReportHandler (fun _ => none) 0 weightedExample (some "canteen_01")
          (some "garbage") =
        ([StoreEvent.aggregate "canteen_01" none none], HandlerResult.thrown) ∧
      recomputeMain (fun _ => none) 0 1 1 weightedExample [] (some "canteen_01")
          (some "garbage") =
        ([StoreEvent.connect, StoreEvent.aggregate "canteen_01" none none, StoreEvent.close],
          ScriptOutcome.failed, []) :=
  ⟨by decide, by decide, parseStart_garbage,
    invalid_weekStart_fails_after_read (fun _ => none) 0 1 1 weightedExample []
      "canteen_01" "garbage" (by decide) (by decide) parseStart_garbage⟩

/-- Claim C10 fails as stated: for the week start `garbage` the accesses of the
handler and of the script are not empty, the rating store is read before the
failure. -/
theorem invalid_weekStart_counterexample :
    parseStart (fun _ => none) "garbage" = none ∧
      (weeklyReportHandler (fun _ => none) 0 weightedExample (some "canteen_01")
        (some "garbage")).1 = [StoreEvent.aggregate "canteen_01" none none] ∧
      (weeklyReportHandler (fun _ => none) 0 weightedExample (some "canteen_01")
        (some "garbage")).2 ≠ HandlerResult.badRequest "canteenId required" ∧
      (recomputeMain (fun _ => none) 0 1 1 weightedExample [] (some "canteen_01")
        (some "garbage")).1 =
        [StoreEvent.connect, StoreEvent.aggregate "canteen_01" none none, StoreEvent.close] := by
  have hs : handlerStart (fun _ => none) 0 (some "garbage") = none := by
    show (if ("garbage" : String) = "" then handlerWeekStart 0
      else parseStart (fun _ => none) "garbage") = none
    rw [if_neg (by decide), parseStart_garbage]
  have hi : scriptStartISO 0 (some "garbage") = some "garbage" := by
    show (if ("garbage" : String) = "" then getWeekStartISO 0 else some "garbage") = _
    rw [if_neg (by decide)]
  have hne : ("canteen_01" : String) ≠ "" := by decide
  refine ⟨parseStart_garbage, ?_, ?_, ?_⟩
  · unfold weeklyReportHandler
    simp only [if_neg hne, hs, addUTCDate_none]
  · unfold weeklyReportHandler
    simp only [if_neg hne, hs, addUTCDate_none, computeSummary]
    exact fun h => HandlerResult.noConfusion h
  · unfold recomputeMain
    simp only [if_neg hne, hi, parseStart_garbage, addUTCDate_none, computeSummary]

/-- Claim C7 on the boundary example, asked for a canteen without ratings. -/
theorem empty_report_witness :
    (∀ r ∈ boundaryExample,
      ¬ Matches "canteen_99" 1757894400000 (1757894400000 + 7 * msPerDay) r) ∧
    aggregate "canteen_99" 1757894400000 (1757894400000 + 7 * msPerDay) boundaryExample =
      some [] ∧
    ∃ ws we : String,
      weeklyReportHandler (fun _ => none) 0 boundaryExample (some "canteen_99")
          (some "2025-09-15") =
        ([StoreEvent.aggregate "canteen_99" (some 1757894400000)
            (some (1757894400000 + 7 * msPerDay))],
          HandlerResult.json
            { canteenId := "canteen_99", weekStart := ws, weekEnd := we, totalRatings := 0
              avgRating := 0, topMeals := [], daily := [] }) := by
  have hno : ∀ r ∈ boundaryExample,
      ¬ Matches "canteen_99" 1757894400000 (1757894400000 + 7 * msPerDay) r := by
    intro r hr h
    have hc : r.canteenId = "canteen_99" := h.1
    simp only [boundaryExample, List.mem_cons, List.mem_singleton, List.not_mem_nil,
      or_false] at hr
    rcases hr with rfl | rfl | rfl | rfl <;> exact absurd hc (by decide)
  have hs : handlerStart (fun _ => none) 0 (some "2025-09-15") = some 1757894400000 := by
    show (if ("2025-09-15" : String) = "" then handlerWeekStart 0
      else parseStart (fun _ => none) "2025-09-15") = some 1757894400000
    rw [if_neg (by decide)]
    exact parseStart_monday
  have h := empty_report (fun _ => none) 0 0 0 boundaryExample [] "canteen_99"
    (some "2025-09-15") 1757894400000 hno
  exact ⟨hno, h.1, h.2.2.2.1 (by decide) hs (by decide)⟩

/-! ## The upsert -/

theorem updateOneUpsert_count (c w : String) (newId : Nat) (rep : WeeklySummary)
    (t : Int) (hc : rep.canteenId = c) (hw : rep.weekStart = w) (coll : List ReportDoc)
    (hkeys : (coll.map (fun d => (d.report.canteenId, d.report.weekStart))).Nodup) :
    ((updateOneUpsert c w newId rep t coll).filter
      (fun d => decide ((d.report.canteenId, d.report.weekStart) = (c, w)))).length = 1 := by
  induction coll with
  | nil => simp [updateOneUpsert, hc, hw]
  | cons d ds ih =>
    simp only [List.map_cons, List.nodup_cons] at hkeys
    unfold updateOneUpsert
    by_cases hk : d.report.canteenId = c ∧ d.report.weekStart = w
    · rw [if_pos hk]
      have hds : ds.filter
          (fun d => decide ((d.report.canteenId, d.report.weekStart) = (c, w))) = [] := by
        apply List.filter_eq_nil_iff.2
        intro x hx hxk
        simp only [decide_eq_true_eq] at hxk
        apply hkeys.1
        rw [hk.1, hk.2, ← hxk]
        exact List.mem_map_of_mem (fun d : ReportDoc => (d.report.canteenId, d.report.weekStart)) hx
      rw [List.filter_cons, if_pos (by simp [hc, hw]), hds]
      rfl
    · rw [if_neg hk]
      have hne : ¬ (d.report.canteenId, d.report.weekStart) = (c, w) := by
        intro e
        exact hk (Prod.mk.inj e)
      simp only [List.filter_cons, hne, decide_False, Bool.false_eq_true, if_false]
      exact ih hkeys.2

theorem updateOneUpsert_keys (c w : String) (newId : Nat) (rep : WeeklySummary)
    (t : Int) (hc : rep.canteenId = c) (hw : rep.weekStart = w) (coll : List ReportDoc)
    (hkeys : (coll.map (fun d => (d.report.canteenId, d.report.weekStart))).Nodup) :
    ((updateOneUpsert c w newId rep t coll).map
      (fun d => (d.report.canteenId, d.report.weekStart))).Nodup := by
  induction coll with
  | nil => simp [updateOneUpsert]
  | cons d ds ih =>
    unfold updateOneUpsert
    by_cases hk : d.report.canteenId = c ∧ d.report.weekStart = w
    · rw [if_pos hk]
      simp only [List.map_cons, hc, hw]
      simp only [List.map_cons, hk.1, hk.2] at hkeys
      exact hkeys
    · rw [if_neg hk]
      simp only [List.map_cons, List.nodup_cons] at hkeys ⊢
      refine ⟨?_, ih hkeys.2⟩
      intro hmem
      obtain ⟨x, hx, hxk⟩ := List.mem_map.1 hmem
      have hcases : x ∈ ds ∨ (x.report.canteenId = c ∧ x.report.weekStart = w) := by
        clear ih hkeys hmem hxk
        induction ds with
        | nil =>
          simp only [updateOneUpsert, List.mem_singleton] at hx
          subst hx
          exact Or.inr ⟨hc, hw⟩
        | cons y ys ihy =>
          unfold updateOneUpsert at hx
          split_ifs at hx with hy
          · rcases List.mem_cons.1 hx with e | e
            · subst e; exact Or.inr ⟨hc, hw⟩
            · exact Or.inl (List.mem_cons_of_mem _ e)
          · rcases List.mem_cons.1 hx with e | e
            · subst e; exact Or.inl (List.mem_cons_self _ _)
            · rcases ihy e with h' | h'
              · exact Or.inl (List.mem_cons_of_mem _ h')
              · exact Or.inr h'
      rcases hcases with h' | h'
      · apply hkeys.1
        rw [← hxk]
        exact List.mem_map_of_mem (fun d : ReportDoc => (d.report.canteenId, d.report.weekStart)) h'
      · apply hk
        have := Prod.mk.inj hxk
        exact ⟨this.1 ▸ h'.1, this.2 ▸ h'.2⟩

/-- A second upsert of the same report only restamps the document of its key. -/
theorem updateOneUpsert_twice (c w : String) (id1 id2 : Nat) (rep : WeeklySummary)
    (t1 t2 : Int) (hc : rep.canteenId = c) (hw : rep.weekStart = w) (coll : List ReportDoc)
    (hkeys : (coll.map (fun d => (d.report.canteenId, d.report.weekStart))).Nodup) :
    updateOneUpsert c w id2 rep t2 (updateOneUpsert c w id1 rep t1 coll) =
      (updateOneUpsert c w id1 rep t1 coll).map (fun d =>
        if d.report.canteenId = c ∧ d.report.weekStart = w then
          { _id := d._id, report := d.report, lastUpdated := t2 }
        else d) := by
  induction coll with
  | nil => simp [updateOneUpsert, hc, hw]
  | cons d ds ih =>
    simp only [List.map_cons, List.nodup_cons] at hkeys
    by_cases hk : d.report.canteenId = c ∧ d.report.weekStart = w
    · have e1 : updateOneUpsert c w id1 rep t1 (d :: ds) =
          { _id := d._id, report := rep, lastUpdated := t1 } :: ds := by
        rw [updateOneUpsert, if_pos hk]
      rw [e1]
      have hds : ds.map (fun d =>
          if d.report.canteenId = c ∧ d.report.weekStart = w then
            ({ _id := d._id, report := d.report, lastUpdated := t2 } : ReportDoc)
          else d) = ds := by
        conv_rhs => rw [← List.map_id ds]
        apply List.map_congr_left
        intro x hx
        have hxk : ¬ (x.report.canteenId = c ∧ x.report.weekStart = w) := by
          intro hxk
          apply hkeys.1
          rw [hk.1, hk.2, ← hxk.1, ← hxk.2]
          exact List.mem_map_of_mem
            (fun d : ReportDoc => (d.report.canteenId, d.report.weekStart)) hx
        rw [if_neg hxk]
        rfl
      rw [updateOneUpsert, if_pos ⟨hc, hw⟩, List.map_cons, if_pos ⟨hc, hw⟩, hds]
    · have e1 : updateOneUpsert c w id1 rep t1 (d :: ds) =
          d :: updateOneUpsert c w id1 rep t1 ds := by
        rw [updateOneUpsert, if_neg hk]
      rw [e1, updateOneUpsert, if_neg hk, List.map_cons, if_neg hk, ih hkeys.2]

theorem map_ite_eq_self {α : Type} (p : α → Prop) [DecidablePred p] (f : α → α)
    (l : List α) (h : ∀ x ∈ l, ¬ p x) : l.map (fun x => if p x then f x else x) = l := by
  conv_rhs => rw [← List.map_id l]
  apply List.map_congr_left
  intro x hx
  rw [if_neg (h x hx)]
  rfl

/-- With a document of the key in the collection, the upsert sets the report and
the stamp of that document and leaves its `_id` and every other document. -/
theorem updateOneUpsert_hit (c w : String) (newId : Nat) (rep : WeeklySummary) (t : Int)
    (coll : List ReportDoc)
    (hkeys : (coll.map (fun d => (d.report.canteenId, d.report.weekStart))).Nodup)
    (hhit : ∃ d ∈ coll, d.report.canteenId = c ∧ d.report.weekStart = w) :
    updateOneUpsert c w newId rep t coll =
      coll.map (fun d =>
        if d.report.canteenId = c ∧ d.report.weekStart = w then
          { _id := d._id, report := rep, lastUpdated := t }
        else d) := by
  induction coll with
  | nil =>
    obtain ⟨d, hd, _⟩ := hhit
    cases hd
  | cons d ds ih =>
    simp only [List.map_cons, List.nodup_cons] at hkeys
    by_cases hk : d.report.canteenId = c ∧ d.report.weekStart = w
    · have hds := map_ite_eq_self
        (fun x : ReportDoc => x.report.canteenId = c ∧ x.report.weekStart = w)
        (fun x => { _id := x._id, report := rep, lastUpdated := t }) ds
        (by
          intro x hx hxk
          apply hkeys.1
          rw [hk.1, hk.2, ← hxk.1, ← hxk.2]
          exact List.mem_map_of_mem
            (fun d : ReportDoc => (d.report.canteenId, d.report.weekStart)) hx)
      rw [updateOneUpsert, if_pos hk, List.map_cons, if_pos hk, hds]
    · obtain ⟨x, hx, hxk⟩ := hhit
      have hx' : x ∈ ds := by
        rcases List.mem_cons.1 hx with e | e
        · subst e
          exact absurd hxk hk
        · exact e
      rw [updateOneUpsert, if_neg hk, List.map_cons, if_neg hk, ih hkeys.2 ⟨x, hx', hxk⟩]

/-- With no document of the key in the collection, the upsert appends one. -/
theorem updateOneUpsert_miss (c w : String) (newId : Nat) (rep : WeeklySummary) (t : Int)
    (coll : List ReportDoc)
    (hmiss : ∀ d ∈ coll, ¬ (d.report.canteenId = c ∧ d.report.weekStart = w)) :
    updateOneUpsert c w newId rep t coll =
      coll ++ [{ _id := newId, report := rep, lastUpdated := t }] := by
  induction coll with
  | nil => rfl
  | cons d ds ih =>
    rw [updateOneUpsert, if_neg (hmiss d (List.mem_cons_self _ _)),
      ih (fun x hx => hmiss x (List.mem_cons_of_mem _ hx))]
    rfl

/-- After the upsert, a document of the key holds the report and the stamp. -/
theorem updateOneUpsert_stored (c w : String) (newId : Nat) (rep : WeeklySummary) (t : Int)
    (coll : List ReportDoc)
    (hkeys : (coll.map (fun d => (d.report.canteenId, d.report.weekStart))).Nodup) :
    ∀ d ∈ updateOneUpsert c w newId rep t coll,
      d.report.canteenId = c ∧ d.report.weekStart = w → d.report = rep ∧ d.lastUpdated = t := by
  intro d hd hdk
  by_cases hhit : ∃ x ∈ coll, x.report.canteenId = c ∧ x.report.weekStart = w
  · rw [updateOneUpsert_hit c w newId rep t coll hkeys hhit] at hd
    obtain ⟨x, hx, rfl⟩ := List.mem_map.1 hd
    by_cases hxk : x.report.canteenId = c ∧ x.report.weekStart = w
    · rw [if_pos hxk]
      exact ⟨rfl, rfl⟩
    · rw [if_neg hxk] at hdk
      exact absurd hdk hxk
  · have hmiss : ∀ x ∈ coll, ¬ (x.report.canteenId = c ∧ x.report.weekStart = w) :=
      fun x hx hxk => hhit ⟨x, hx, hxk⟩
    rw [updateOneUpsert_miss c w newId rep t coll hmiss] at hd
    rcases List.mem_append.1 hd with e | e
    · exact absurd hdk (hmiss d e)
    · rw [List.mem_singleton.1 e]
      exact ⟨rfl, rfl⟩

/-- Claim C8: on a collection with at most one document per `(canteenId, weekStart)`,
one upsert of a report leaves exactly one document with the key of the report,
and that document holds the report and the stamp of the call: a document of the
key that was there keeps its `_id` and has its report replaced, every other
document is left as it was, and with no document of the key one is appended.  A
second upsert of the same report changes nothing but `lastUpdated` of that
document, so the documents are the same in number and order, with the same
`_id` and report fields, the stored report is still the report, and the keys
stay unique.  The script run a second time on the same arguments does just
that, on the report it computed. -/
theorem materialize_idempotent (coll : List ReportDoc) (rep : WeeklySummary) (t1 t2 : Int)
    (id1 id2 : Nat)
    (hkeys : (coll.map (fun d => (d.report.canteenId, d.report.weekStart))).Nodup) :
    ((materialize rep t1 id1 coll).filter (fun d =>
      decide ((d.report.canteenId, d.report.weekStart) =
        (rep.canteenId, rep.weekStart)))).length = 1 ∧
    ((materialize rep t2 id2 (materialize rep t1 id1 coll)).filter (fun d =>
      decide ((d.report.canteenId, d.report.weekStart) =
        (rep.canteenId, rep.weekStart)))).length = 1 ∧
    materialize rep t2 id2 (materialize rep t1 id1 coll) =
      (materialize rep t1 id1 coll).map (fun d =>
        if d.report.canteenId = rep.canteenId ∧ d.report.weekStart = rep.weekStart then
          { _id := d._id, report := d.report, lastUpdated := t2 }
        else d) ∧
    (materialize rep t2 id2 (materialize rep t1 id1 coll)).map (fun d => (d._id, d.report)) =
      (materialize rep t1 id1 coll).map (fun d => (d._id, d.report)) ∧
    ((materialize rep t2 id2 (materialize rep t1 id1 coll)).map
      (fun d => (d.report.canteenId, d.report.weekStart))).Nodup ∧
    (∀ (legacy : String → JSDate) (now : Int) (ratings : List Rating) (c : String)
      (w : Option String) (ev : List StoreEvent) (saved : List ReportDoc),
      recomputeMain legacy now t1 id1 ratings coll (some c) w =
        (ev, ScriptOutcome.saved, saved) →
      recomputeMain legacy now t2 id2 ratings saved (some c) w =
        (ev, ScriptOutcome.saved, saved.map (fun d =>
          if d.report.canteenId = c ∧ d.report.weekStart = (scriptStartISO now w).getD "" then
            { _id := d._id, report := d.report, lastUpdated := t2 }
          else d))) ∧
    (∀ d ∈ materialize rep t1 id1 coll,
      d.report.canteenId = rep.canteenId ∧ d.report.weekStart = rep.weekStart →
        d.report = rep ∧ d.lastUpdated = t1) ∧
    (∀ d ∈ materialize rep t2 id2 (materialize rep t1 id1 coll),
      d.report.canteenId = rep.canteenId ∧ d.report.weekStart = rep.weekStart →
        d.report = rep ∧ d.lastUpdated = t2) ∧
    ((∃ d ∈ coll, d.report.canteenId = rep.canteenId ∧ d.report.weekStart = rep.weekStart) →
      materialize rep t1 id1 coll =
        coll.map (fun d =>
          if d.report.canteenId = rep.canteenId ∧ d.report.weekStart = rep.weekStart then
            { _id := d._id, report := rep, lastUpdated := t1 }
          else d)) ∧
    ((∀ d ∈ coll,
        ¬ (d.report.canteenId = rep.canteenId ∧ d.report.weekStart = rep.weekStart)) →
      materialize rep t1 id1 coll =
        coll ++ [{ _id := id1, report := rep, lastUpdated := t1 }]) ∧
    (∀ (legacy : String → JSDate) (now : Int) (ratings : List Rating) (c : String)
      (w : Option String) (ev : List StoreEvent) (saved : List ReportDoc),
      recomputeMain legacy now t1 id1 ratings coll (some c) w =
        (ev, ScriptOutcome.saved, saved) →
      ∃ (iso : String) (computed : WeeklySummary),
        scriptStartISO now w = some iso ∧
        computeSummary c (parseStart legacy iso) (addUTCDate (parseStart legacy iso) 7)
          (some iso) ratings = some computed ∧
        computed.canteenId = c ∧ computed.weekStart = iso ∧
        saved = materialize computed t1 id1 coll ∧
        (∀ d ∈ saved, d.report.canteenId = c ∧ d.report.weekStart = iso →
          d.report = computed ∧ d.lastUpdated = t1) ∧
        recomputeMain legacy now t2 id2 ratings saved (some c) w =
          (ev, ScriptOutcome.saved, materialize computed t2 id2 saved) ∧
        (∀ d ∈ materialize computed t2 id2 saved,
          d.report.canteenId = c ∧ d.report.weekStart = iso →
            d.report = computed ∧ d.lastUpdated = t2)) := by
  have hk1 := updateOneUpsert_keys rep.canteenId rep.weekStart id1 rep t1 rfl rfl coll hkeys
  have htw := updateOneUpsert_twice rep.canteenId rep.weekStart id1 id2 rep t1 t2 rfl rfl
    coll hkeys
  refine ⟨updateOneUpsert_count _ _ id1 rep t1 rfl rfl coll hkeys,
    updateOneUpsert_count _ _ id2 rep t2 rfl rfl _ hk1, htw, ?_,
    updateOneUpsert_keys _ _ id2 rep t2 rfl rfl _ hk1, ?_,
    updateOneUpsert_stored _ _ id1 rep t1 coll hkeys,
    updateOneUpsert_stored _ _ id2 rep t2 _ hk1,
    updateOneUpsert_hit _ _ id1 rep t1 coll hkeys,
    updateOneUpsert_miss _ _ id1 rep t1 coll, ?_⟩
  · unfold materialize
    rw [htw, List.map_map]
    apply List.map_congr_left
    intro d _
    simp only [Function.comp]
    split_ifs <;> rfl
  · intro legacy now ratings c w ev saved h
    obtain ⟨hc, iso, rep', hiso, hs, hev, hsaved⟩ := script_saved h
    obtain ⟨s, byMeal, ws, we, h1, h2, hagg, hrep, hws⟩ := computeSummary_some hs
    have hws : ws = iso := (Option.some.inj hws).symm
    have hcan : rep'.canteenId = c := by rw [hrep]; rfl
    have hwk : rep'.weekStart = iso := by rw [hrep, ← hws]; rfl
    have h2nd := script_of_summary legacy now t2 id2 ratings saved w rep' hc hiso hs
    rw [h2nd, hev, hsaved, hiso]
    have htw' := updateOneUpsert_twice rep'.canteenId rep'.weekStart id1 id2 rep' t1 t2 rfl rfl
      coll hkeys
    unfold materialize
    rw [htw', hcan, hwk]
    rfl
  · intro legacy now ratings c w ev saved h
    obtain ⟨hc, iso, rep', hiso, hs, hev, hsaved⟩ := script_saved h
    obtain ⟨s, byMeal, ws, we, h1, h2, hagg, hrep, hws⟩ := computeSummary_some hs
    have hws : ws = iso := (Option.some.inj hws).symm
    have hcan : rep'.canteenId = c := by rw [hrep]; rfl
    have hwk : rep'.weekStart = iso := by rw [hrep, ← hws]; rfl
    have h2nd := script_of_summary legacy now t2 id2 ratings saved w rep' hc hiso hs
    have hst1 := updateOneUpsert_stored rep'.canteenId rep'.weekStart id1 rep' t1 coll hkeys
    have hk1' := updateOneUpsert_keys rep'.canteenId rep'.weekStart id1 rep' t1 rfl rfl
      coll hkeys
    have hst2 := updateOneUpsert_stored rep'.canteenId rep'.weekStart id2 rep' t2 _ hk1'
    rw [hcan, hwk] at hst1 hst2
    refine ⟨iso, rep', hiso, hs, hcan, hwk, hsaved, ?_, ?_, ?_⟩
    · rw [hsaved]
      unfold materialize
      rw [hcan, hwk]
      exact hst1
    · rw [h2nd, hev]
    · rw [hsaved]
      unfold materialize
      rw [hcan, hwk]
      exact hst2

/-- Claim C8 on a collection holding the report of an older week and a stale
report of the week of the boundary example: the first upsert replaces the stale
report in its document, which keeps its `_id`, and leaves the older document;
the second only restamps it.  On a collection without the key the first upsert
appends the document. -/
theorem materialize_idempotent_witness :
    ([olderDoc, staleDoc].map (fun d => (d.report.canteenId, d.report.weekStart))).Nodup ∧
    staleDoc.report ≠ boundaryReport ∧
    materialize boundaryReport 1758200100000 1 [olderDoc, staleDoc] =
      [olderDoc, { _id := 9, report := boundaryReport, lastUpdated := 1758200100000 }] ∧
    materialize boundaryReport 1758300000000 2
        (materialize boundaryReport 1758200100000 1 [olderDoc, staleDoc]) =
      [olderDoc, { _id := 9, report := boundaryReport, lastUpdated := 1758300000000 }] ∧
    ((materialize boundaryReport 1758300000000 2
        (materialize boundaryReport 1758200100000 1 [olderDoc, staleDoc])).filter (fun d =>
      decide ((d.report.canteenId, d.report.weekStart) =
        (boundaryReport.canteenId, boundaryReport.weekStart)))).length = 1 ∧
    materialize boundaryReport 1758200100000 1 [olderDoc] =
      [olderDoc, { _id := 1, report := boundaryReport, lastUpdated := 1758200100000 }] := by
  have hne : ¬ (olderDoc.report.canteenId = boundaryReport.canteenId ∧
      olderDoc.report.weekStart = boundaryReport.weekStart) := by
    intro h
    exact absurd h.2 (by decide)
  have hst : staleDoc.report.canteenId = boundaryReport.canteenId ∧
      staleDoc.report.weekStart = boundaryReport.weekStart := ⟨rfl, rfl⟩
  have hk : ([olderDoc, staleDoc].map
      (fun d => (d.report.canteenId, d.report.weekStart))).Nodup := by
    simp only [List.map_cons, List.map_nil, List.nodup_cons, List.mem_singleton,
      List.not_mem_nil, not_false_eq_true, List.nodup_nil, and_true]
    intro e
    exact hne ⟨(Prod.mk.inj e).1.trans hst.1, (Prod.mk.inj e).2.trans hst.2⟩
  have hdiff : staleDoc.report ≠ boundaryReport := by
    intro e
    have : staleDoc.report.totalRatings = boundaryReport.totalRatings := by rw [e]
    exact absurd this (by decide)
  have h := materialize_idempotent [olderDoc, staleDoc] boundaryReport 1758200100000
    1758300000000 1 2 hk
  obtain ⟨_, h2, h3, _, _, _, _, _, h9, h10, _⟩ := h
  have e1 : materialize boundaryReport 1758200100000 1 [olderDoc, staleDoc] =
      [olderDoc, { _id := 9, report := boundaryReport, lastUpdated := 1758200100000 }] := by
    rw [h9 ⟨staleDoc, by simp, hst⟩, List.map_cons, List.map_cons, List.map_nil,
      if_neg hne, if_pos hst]
    rfl
  have hk0 : ([olderDoc].map (fun d => (d.report.canteenId, d.report.weekStart))).Nodup := by
    simp
  have e0 : materialize boundaryReport 1758200100000 1 [olderDoc] =
      [olderDoc, { _id := 1, report := boundaryReport, lastUpdated := 1758200100000 }] := by
    unfold materialize
    rw [updateOneUpsert, if_neg hne, updateOneUpsert]
  refine ⟨hk, hdiff, e1, ?_, h2, e0⟩
  rw [h3, e1, List.map_cons, List.map_cons, List.map_nil, if_neg hne, if_pos ⟨rfl, rfl⟩]

/-! ## When the computation returns -/

theorem Day_mono {t1 t2 : Int} (h : t1 ≤ t2) : Day t1 ≤ Day t2 := by
  unfold Day msPerDay
  omega

theorem YearFromTime_mono {t1 t2 : Int} (h : t1 ≤ t2) : YearFromTime t1 ≤ YearFromTime t2 :=
  yearFromDay_mono (Day_mono h)

theorem addDayField_returns (rs : List Rating)
    (h : ∀ r ∈ rs, 0 ≤ YearFromTime r.createdAt ∧ YearFromTime r.createdAt ≤ 9999) :
    ∃ ds, addDayField rs = some ds := by
  induction rs with
  | nil => exact ⟨[], rfl⟩
  | cons r rs ih =>
    obtain ⟨ds, hds⟩ := ih (fun x hx => h x (List.mem_cons_of_mem _ hx))
    have hr := h r (List.mem_cons_self _ _)
    refine ⟨{ doc := r, day := String.mk (padDigits 4 (YearFromTime r.createdAt).toNat ++
      '-' :: padDigits 2 (MonthFromTime r.createdAt + 1).toNat ++
      '-' :: padDigits 2 (DateFromTime r.createdAt).toNat) } :: ds, ?_⟩
    rw [addDayField, hds]
    unfold dateToString
    rw [if_pos hr]
    rfl

/-- The aggregation returns whenever the window lies in the years 0 to 9999, the
years for which `$dateToString` is defined. -/
theorem aggregate_returns (c : String) (s e : Int) (rs : List Rating)
    (hs : 0 ≤ YearFromTime s) (he : YearFromTime (e - 1) ≤ 9999) :
    ∃ byMeal, aggregate c s e rs = some byMeal := by
  have hall : ∀ r ∈ matchStage c s e rs,
      0 ≤ YearFromTime r.createdAt ∧ YearFromTime r.createdAt ≤ 9999 := by
    intro r hr
    rw [matchStage_eq_filter] at hr
    have hm : Matches c s e r := by simpa using (List.mem_filter.1 hr).2
    obtain ⟨_, h1, h2⟩ := hm
    exact ⟨le_trans hs (YearFromTime_mono h1),
      le_trans (YearFromTime_mono (by omega)) he⟩
  obtain ⟨ds, hds⟩ := addDayField_returns _ hall
  exact ⟨groupAndSort ds, by unfold aggregate; rw [hds]; rfl⟩

/-- The handler answers with a report for every request with a canteen whose
window lies in the years 0 to 9999. -/
theorem handler_returns (legacy : String → JSDate) (now : Int) (ratings : List Rating)
    (c : String) (w : Option String) (start : Int) (hc : c ≠ "")
    (hstart : handlerStart legacy now w = some start) (hs : 0 ≤ YearFromTime start)
    (he : YearFromTime (start + 7 * msPerDay - 1) ≤ 9999) :
    ∃ rep, weeklyReportHandler legacy now ratings (some c) w =
      ([StoreEvent.aggregate c (some start) (some (start + 7 * msPerDay))],
        HandlerResult.json rep) := by
  have hr := handlerStart_range hstart
  have hd : Day (start + 7 * msPerDay - 1) < 2932897 := by
    have h2 := (yearFromDay_spec (Day (start + 7 * msPerDay - 1))).2
    have h3 : DayFromYear (yearFromDay (Day (start + 7 * msPerDay - 1)) + 1) ≤
        DayFromYear 10000 := DayFromYear_le (by unfold YearFromTime at he; omega)
    rw [DayFromYear_10000] at h3
    omega
  have hmax : start + 7 * msPerDay ≤ 8640000000000000 := by
    have := Day_bounds (start + 7 * msPerDay - 1)
    unfold msPerDay at *
    omega
  have hstop := addUTCDate_seven_of_range hr.1 hmax
  obtain ⟨byMeal, hagg⟩ := aggregate_returns c start (start + 7 * msPerDay) ratings hs he
  have hm : minusOneMs (some (start + 7 * msPerDay)) = some (start + 7 * msPerDay - 1) := by
    unfold minusOneMs
    simp only
    apply TimeClip_of_range
    · unfold msPerDay; omega
    · omega
  refine ⟨buildSummary c (String.mk ((isoChars start).take 10))
    (String.mk ((isoChars (start + 7 * msPerDay - 1)).take 10)) byMeal, ?_⟩
  have h := handler_of_summary legacy now ratings w
    (buildSummary c (String.mk ((isoChars start).take 10))
      (String.mk ((isoChars (start + 7 * msPerDay - 1)).take 10)) byMeal) hc
  rw [hstart, hstop] at h
  apply h
  unfold computeSummary
  simp only [hagg, hm, isoDateOnly]

/-! ## Count conservation -/

/-- The counts of the daily list are the counts stored under the sorted keys. -/
theorem dailyList_count (M : List (String × DayAcc)) :
    (dailyList M).map (fun x => x.count) =
      ((M.map (fun e => e.1)).insertionSort (fun a b => a ≤ b)).map
        (fun day => ((M.lookup day).map (fun a => a.count)).getD 0) := by
  unfold dailyList
  rw [List.map_map]
  apply List.map_congr_left
  intro day _
  simp only [Function.comp]
  split <;> simp [*]

/-- The counts of the daily list add up to the number of aggregated ratings. -/
theorem daily_count_sum (docs : List DatedRating) :
    ((dailyList (summaryLoop (groupAndSort docs)).dailyMap).map (fun x => x.count)).sum =
      docs.length := by
  obtain ⟨f1, f2, f3, _⟩ :=
    foldl_mergeDay ((groupAndSort docs).flatMap (fun a => a.daily)) []
  rw [summaryLoop_dailyMap, dailyList_count]
  generalize hitems : (groupAndSort docs).flatMap (fun a => a.daily) = items at f1 f2 f3 ⊢
  generalize hM : items.foldl (fun m d => mergeDay d m) [] = M at f1 f2 f3 ⊢
  have hnd : (M.map (fun e => e.1)).Nodup := f2 (by simp)
  rw [((List.perm_insertionSort (fun a b : String => a ≤ b) (M.map (fun e => e.1))).map _).sum_eq]
  have e1 : (M.map (fun e => e.1)).map
        (fun day => ((M.lookup day).map (fun a => a.count)).getD 0) =
      (M.map (fun e => e.1)).map (fun k =>
        ((items.filter (fun d => decide (d.day = k))).map (fun d => d.count)).sum) := by
    apply List.map_congr_left
    intro k _
    rw [f3 k, sum_map_filter (fun d : DailyItem => d.day = k)]
    simp
  rw [e1, sum_groups (fun d : DailyItem => d.day) (fun d => d.count) items _ hnd
    (fun x hx => (f1 _).2 (Or.inr (List.mem_map_of_mem (fun d : DailyItem => d.day) hx)))]
  rw [← hitems, sum_daily_items docs (fun _ cnt _ => cnt), groupByMealDay_count_sum]

/-- Every document of the second `$group` counts at least one rating. -/
theorem groupAndSort_count_pos {docs : List DatedRating} {a : MealAgg}
    (h : a ∈ groupAndSort docs) : 1 ≤ a.count := by
  obtain ⟨d, hd, rfl⟩ := mem_groupAndSort h
  have hg : dayGroupOf docs (d.doc.mealId, d.day) ∈
      (groupByMealDay docs).filter (fun x => decide (x.mealId = d.doc.mealId)) :=
    List.mem_filter.2 ⟨List.mem_map.2 ⟨_, mem_firstSeen.2
      (List.mem_map_of_mem (fun d : DatedRating => (d.doc.mealId, d.day)) hd), rfl⟩,
      by simp [dayGroupOf]⟩
  have hpos : 1 ≤ (dayGroupOf docs (d.doc.mealId, d.day)).count :=
    List.length_pos_of_mem (List.mem_filter.2 ⟨hd, by simp⟩)
  have hle : (dayGroupOf docs (d.doc.mealId, d.day)).count ≤
      (((groupByMealDay docs).filter (fun x => decide (x.mealId = d.doc.mealId))).map
        (fun x => x.count)).sum :=
    List.single_le_sum (fun _ _ => Nat.zero_le _) _
      (List.mem_map_of_mem (fun x : DayGroup => x.count) hg)
  exact le_trans hpos hle

/-- Claim C11: in every report the computation returns, `totalRatings` is the
number of matching ratings, the counts of `topMeals` add up to it and so do the
counts of `daily`; every entry of `topMeals` and of `daily` has a count of at
least 1, so the division by the count of a date is a division by a non-zero
number: the `avgRating` of the date times its count is the sum of the ratings of
that date. -/
theorem count_conservation (c : String) (s e : Int) (wsOpt : Option String)
    (rs : List Rating) (rep : WeeklySummary)
    (h : computeSummary c (some s) (some e) wsOpt rs = some rep) :
    rep.totalRatings = (rs.filter (fun r => decide (Matches c s e r))).length ∧
      (rep.topMeals.map (fun m => m.count)).sum = rep.totalRatings ∧
      (rep.daily.map (fun x => x.count)).sum = rep.totalRatings ∧
      (∀ m ∈ rep.topMeals, 1 ≤ m.count) ∧
      (∀ x ∈ rep.daily, 1 ≤ x.count ∧
        x.avgRating * (x.count : ℚ) =
          (ratingsOfDay (rs.filter (fun r => decide (Matches c s e r)))
            (dayNumber x.date)).sum) := by
  obtain ⟨byMeal, ws, we, hagg, rfl⟩ := computeSummary_inv h
  have hdaily := (buildSummary_daily c s e rs byMeal ws we hagg).2.2.2
  rw [matchStage_eq_filter] at hdaily
  have htotal := totalRatings_eq_matching ws we hagg
  obtain ⟨docs, hd, rfl⟩ := aggregate_some hagg
  refine ⟨htotal, ?_, ?_, ?_, ?_⟩
  · show ((summaryLoop (groupAndSort docs)).topMeals.map (fun m => m.count)).sum =
      (summaryLoop (groupAndSort docs)).totalRatings
    rw [summaryLoop_topMeals, summaryLoop_totalRatings, List.map_map]
    rfl
  · show ((dailyList (summaryLoop (groupAndSort docs)).dailyMap).map (fun x => x.count)).sum =
      (summaryLoop (groupAndSort docs)).totalRatings
    rw [daily_count_sum, summaryLoop_totalRatings, groupAndSort_count_sum]
  · intro m hm
    have hm' : m ∈ (summaryLoop (groupAndSort docs)).topMeals := hm
    rw [summaryLoop_topMeals] at hm'
    obtain ⟨a, ha, rfl⟩ := List.mem_map.1 hm'
    exact groupAndSort_count_pos ha
  · intro x hx
    obtain ⟨h0, _, _, hlen, hmean⟩ := hdaily x hx
    refine ⟨Nat.one_le_iff_ne_zero.2 h0, ?_⟩
    have hq : (x.count : ℚ) ≠ 0 := Nat.cast_ne_zero.2 h0
    rw [hmean]
    unfold mean
    rw [← hlen, div_mul_cancel₀ _ hq]

/-- Claim C11 on the boundary example: of the four ratings two match, and the
report counts 2 ratings in all, 1 + 1 over its two meals and 2 on its one day. -/
theorem count_conservation_witness :
    computeSummary "canteen_01" (some 1757894400000) (some 1758499200000) (some "2025-09-15")
        boundaryExample = some boundaryReport ∧
      boundaryExample.length = 4 ∧
      boundaryReport.totalRatings = 2 ∧
      (boundaryExample.filter
        (fun r => decide (Matches "canteen_01" 1757894400000 1758499200000 r))).length = 2 ∧
      (boundaryReport.topMeals.map (fun m => m.count)).sum = 2 ∧
      (boundaryReport.daily.map (fun x => x.count)).sum = 2 ∧
      (∀ m ∈ boundaryReport.topMeals, 1 ≤ m.count) ∧
      (∀ x ∈ boundaryReport.daily, 1 ≤ x.count) := by
  have h := count_conservation "canteen_01" 1757894400000 1758499200000 (some "2025-09-15")
    boundaryExample boundaryReport computeSummary_boundaryExample
  have ht : boundaryReport.totalRatings = 2 := rfl
  refine ⟨computeSummary_boundaryExample, rfl, ht, ?_, ?_, ?_, h.2.2.2.1,
    fun x hx => (h.2.2.2.2 x hx).1⟩
  · rw [← h.1, ht]
  · rw [h.2.1, ht]
  · rw [h.2.2.1, ht]

end MealFeedback
